import Mathlib

/-!
# Predicate tree of `storage/reads/datatypes/predicate.pb.go`

A shallow embedding of the generated Go package `datatypes`:

* the three enumerations `Node_Type`, `Node_Comparison`, `Node_Logical` with
  their constants and their name/value maps;
* the message types `Node` and `Predicate`, the oneof wrappers that implement
  `isNode_Value`, and the getters;
* the field table written in the struct tags, and the proto3 wire encoding that
  table selects (the marshal and unmarshal routines themselves are the ones of
  `google.golang.org/protobuf`, which the file imports as `protoimpl`);
* the raw file descriptor, read as a `FileDescriptorProto`, and the `String`
  methods of the enums, which resolve names from it.

Go machine integers are `Int`/`Nat` with explicit ranges, a Go `string` is its
sequence of bytes, a `float64` is its 64-bit pattern, a pointer that may be
`nil` is an `Option`.
-/

namespace datatypes

/-! ## Enumerations -/

/-- Go `type Node_Type int32`. -/
abbrev Node_Type := Int

/-- Go `type Node_Comparison int32`. -/
abbrev Node_Comparison := Int

/-- Go `type Node_Logical int32`. -/
abbrev Node_Logical := Int

/-- Range of a Go `int32`. -/
def isInt32 (x : Int) : Prop := -2147483648 ≤ x ∧ x < 2147483648

/-- Range of a Go `int64`. -/
def isInt64 (x : Int) : Prop := -9223372036854775808 ≤ x ∧ x < 9223372036854775808

/-- Range of a Go `uint64`. -/
def isUint64 (x : Nat) : Prop := x < 18446744073709551616

instance (x : Int) : Decidable (isInt32 x) := by unfold isInt32; infer_instance
instance (x : Int) : Decidable (isInt64 x) := by unfold isInt64; infer_instance
instance (x : Nat) : Decidable (isUint64 x) := by unfold isUint64; infer_instance

def Node_TypeLogicalExpression : Node_Type := 0
def Node_TypeComparisonExpression : Node_Type := 1
def Node_TypeParenExpression : Node_Type := 2
def Node_TypeTagRef : Node_Type := 3
def Node_TypeLiteral : Node_Type := 4
def Node_TypeFieldRef : Node_Type := 5

/-- Go `Node_Type_name`, a `map[int32]string` literal, as its list of entries. -/
def Node_Type_name : List (Int × String) :=
  [ (0, "TypeLogicalExpression"),
    (1, "TypeComparisonExpression"),
    (2, "TypeParenExpression"),
    (3, "TypeTagRef"),
    (4, "TypeLiteral"),
    (5, "TypeFieldRef") ]

/-- Go `Node_Type_value`, a `map[string]int32` literal, as its list of entries. -/
def Node_Type_value : List (String × Int) :=
  [ ("TypeLogicalExpression", 0),
    ("TypeComparisonExpression", 1),
    ("TypeParenExpression", 2),
    ("TypeTagRef", 3),
    ("TypeLiteral", 4),
    ("TypeFieldRef", 5) ]

/-- Go `func (x Node_Type) Number() protoreflect.EnumNumber`: a conversion
between two `int32` types. -/
def Node_Type.Number (x : Node_Type) : Int := x

def Node_ComparisonEqual : Node_Comparison := 0
def Node_ComparisonNotEqual : Node_Comparison := 1
def Node_ComparisonStartsWith : Node_Comparison := 2
def Node_ComparisonRegex : Node_Comparison := 3
def Node_ComparisonNotRegex : Node_Comparison := 4
def Node_ComparisonLess : Node_Comparison := 5
def Node_ComparisonLessEqual : Node_Comparison := 6
def Node_ComparisonGreater : Node_Comparison := 7
def Node_ComparisonGreaterEqual : Node_Comparison := 8

/-- Go `Node_Comparison_name`. -/
def Node_Comparison_name : List (Int × String) :=
  [ (0, "ComparisonEqual"),
    (1, "ComparisonNotEqual"),
    (2, "ComparisonStartsWith"),
    (3, "ComparisonRegex"),
    (4, "ComparisonNotRegex"),
    (5, "ComparisonLess"),
    (6, "ComparisonLessEqual"),
    (7, "ComparisonGreater"),
    (8, "ComparisonGreaterEqual") ]

/-- Go `Node_Comparison_value`. -/
def Node_Comparison_value : List (String × Int) :=
  [ ("ComparisonEqual", 0),
    ("ComparisonNotEqual", 1),
    ("ComparisonStartsWith", 2),
    ("ComparisonRegex", 3),
    ("ComparisonNotRegex", 4),
    ("ComparisonLess", 5),
    ("ComparisonLessEqual", 6),
    ("ComparisonGreater", 7),
    ("ComparisonGreaterEqual", 8) ]

/-- Go `func (x Node_Comparison) Number() protoreflect.EnumNumber`. -/
def Node_Comparison.Number (x : Node_Comparison) : Int := x

def Node_LogicalAnd : Node_Logical := 0
def Node_LogicalOr : Node_Logical := 1

/-- Go `Node_Logical_name`. -/
def Node_Logical_name : List (Int × String) :=
  [ (0, "LogicalAnd"),
    (1, "LogicalOr") ]

/-- Go `Node_Logical_value`. -/
def Node_Logical_value : List (String × Int) :=
  [ ("LogicalAnd", 0),
    ("LogicalOr", 1) ]

/-- Go `func (x Node_Logical) Number() protoreflect.EnumNumber`. -/
def Node_Logical.Number (x : Node_Logical) : Int := x

/-- Go map indexing `m[k]` with the comma-ok form: the entry under `k`, if any. -/
def mapGet {α β : Type} [BEq α] (m : List (α × β)) (k : α) : Option β := m.lookup k

/-- The keys of a Go map literal, in the order written. -/
def mapKeys {α β : Type} (m : List (α × β)) : List α := m.map Prod.fst

/-! ## Messages -/

/-- A Go `string`: a sequence of bytes. -/
abbrev GoString := List Nat

/-- The ten wrapper structs that implement `isNode_Value`, each with its one
field.  `FloatValue` holds the bit pattern of the `float64`. -/
inductive isNode_Value where
  | Node_StringValue (StringValue : GoString)
  | Node_BooleanValue (BooleanValue : Bool)
  | Node_IntegerValue (IntegerValue : Int)
  | Node_UnsignedValue (UnsignedValue : Nat)
  | Node_FloatValue (FloatValue : Nat)
  | Node_RegexValue (RegexValue : GoString)
  | Node_TagRefValue (TagRefValue : GoString)
  | Node_FieldRefValue (FieldRefValue : GoString)
  | Node_Logical_ (Logical : Node_Logical)
  | Node_Comparison_ (Comparison : Node_Comparison)
  deriving DecidableEq, Repr

/-- Go `type Node struct`: the exported fields `NodeType`, `Children`, `Value`.
`Value` is one interface slot: `none` is the nil interface.  The pointers in
`Children` and the wrapper pointer inside `Value` are taken to be non-nil, as in
every tree the unmarshal routine builds; the unexported `state`, `sizeCache` and
`unknownFields` are bookkeeping of the runtime and are left out. -/
inductive Node where
  | mk (NodeType : Node_Type) (Children : List Node) (Value : Option isNode_Value)
  deriving Repr

/-- Field `NodeType`. -/
def Node.NodeType : Node → Node_Type
  | .mk t _ _ => t

/-- Field `Children`. -/
def Node.Children : Node → List Node
  | .mk _ cs _ => cs

/-- Field `Value`. -/
def Node.Value : Node → Option isNode_Value
  | .mk _ _ v => v

/-- Go `Node{}`: the zero value. -/
def Node.zero : Node := .mk 0 [] none

/-- Go `type Predicate struct`: the exported field `Root *Node`. -/
structure Predicate where
  Root : Option Node
  deriving Repr

/-- Go `Predicate{}`. -/
def Predicate.zero : Predicate := ⟨none⟩

/-! ## Getters

A method with receiver `x *Node` takes an `Option Node`: `none` is the nil
pointer. -/

/-- Go `func (x *Node) GetNodeType() Node_Type`. -/
def Node.GetNodeType (x : Option Node) : Node_Type :=
  match x with
  | some n => n.NodeType
  | none => Node_TypeLogicalExpression

/-- Go `func (x *Node) GetChildren() []*Node`; the nil slice is `[]`. -/
def Node.GetChildren (x : Option Node) : List Node :=
  match x with
  | some n => n.Children
  | none => []

/-- Go `func (m *Node) GetValue() isNode_Value`. -/
def Node.GetValue (m : Option Node) : Option isNode_Value :=
  match m with
  | some n => n.Value
  | none => none

/-- Go `func (x *Node) GetStringValue() string`. -/
def Node.GetStringValue (x : Option Node) : GoString :=
  match Node.GetValue x with
  | some (.Node_StringValue v) => v
  | _ => []

/-- Go `func (x *Node) GetBooleanValue() bool`. -/
def Node.GetBooleanValue (x : Option Node) : Bool :=
  match Node.GetValue x with
  | some (.Node_BooleanValue v) => v
  | _ => false

/-- Go `func (x *Node) GetIntegerValue() int64`. -/
def Node.GetIntegerValue (x : Option Node) : Int :=
  match Node.GetValue x with
  | some (.Node_IntegerValue v) => v
  | _ => 0

/-- Go `func (x *Node) GetUnsignedValue() uint64`. -/
def Node.GetUnsignedValue (x : Option Node) : Nat :=
  match Node.GetValue x with
  | some (.Node_UnsignedValue v) => v
  | _ => 0

/-- Go `func (x *Node) GetFloatValue() float64`; the result is the bit pattern,
`0` being that of `0.0`. -/
def Node.GetFloatValue (x : Option Node) : Nat :=
  match Node.GetValue x with
  | some (.Node_FloatValue v) => v
  | _ => 0

/-- Go `func (x *Node) GetRegexValue() string`. -/
def Node.GetRegexValue (x : Option Node) : GoString :=
  match Node.GetValue x with
  | some (.Node_RegexValue v) => v
  | _ => []

/-- Go `func (x *Node) GetTagRefValue() string`. -/
def Node.GetTagRefValue (x : Option Node) : GoString :=
  match Node.GetValue x with
  | some (.Node_TagRefValue v) => v
  | _ => []

/-- Go `func (x *Node) GetFieldRefValue() string`. -/
def Node.GetFieldRefValue (x : Option Node) : GoString :=
  match Node.GetValue x with
  | some (.Node_FieldRefValue v) => v
  | _ => []

/-- Go `func (x *Node) GetLogical() Node_Logical`. -/
def Node.GetLogical (x : Option Node) : Node_Logical :=
  match Node.GetValue x with
  | some (.Node_Logical_ v) => v
  | _ => Node_LogicalAnd

/-- Go `func (x *Node) GetComparison() Node_Comparison`. -/
def Node.GetComparison (x : Option Node) : Node_Comparison :=
  match Node.GetValue x with
  | some (.Node_Comparison_ v) => v
  | _ => Node_ComparisonEqual

/-- Go `func (x *Predicate) GetRoot() *Node`. -/
def Predicate.GetRoot (x : Option Predicate) : Option Node :=
  match x with
  | some p => p.Root
  | none => none

/-- The results of the ten typed getters of one receiver, in the order the
getters are declared. -/
structure TypedGetters where
  StringValue : GoString
  BooleanValue : Bool
  IntegerValue : Int
  UnsignedValue : Nat
  FloatValue : Nat
  RegexValue : GoString
  TagRefValue : GoString
  FieldRefValue : GoString
  Logical : Node_Logical
  Comparison : Node_Comparison
  deriving DecidableEq, Repr

/-- Calls the ten typed getters on `x`. -/
def Node.typedGetters (x : Option Node) : TypedGetters :=
  { StringValue := Node.GetStringValue x
    BooleanValue := Node.GetBooleanValue x
    IntegerValue := Node.GetIntegerValue x
    UnsignedValue := Node.GetUnsignedValue x
    FloatValue := Node.GetFloatValue x
    RegexValue := Node.GetRegexValue x
    TagRefValue := Node.GetTagRefValue x
    FieldRefValue := Node.GetFieldRefValue x
    Logical := Node.GetLogical x
    Comparison := Node.GetComparison x }

/-- The zero value of every getter's result type: `""`, `false`, `0`, `0`,
`0.0`, `""`, `""`, `""`, `Node_LogicalAnd`, `Node_ComparisonEqual`. -/
def TypedGetters.zero : TypedGetters :=
  { StringValue := []
    BooleanValue := false
    IntegerValue := 0
    UnsignedValue := 0
    FloatValue := 0
    RegexValue := []
    TagRefValue := []
    FieldRefValue := []
    Logical := Node_LogicalAnd
    Comparison := Node_ComparisonEqual }

/-! ## The oneof: wrapper types and their registration -/

/-- The Go types declared with a method `isNode_Value()`, by name. -/
inductive WrapperType where
  | Node_StringValue
  | Node_BooleanValue
  | Node_IntegerValue
  | Node_UnsignedValue
  | Node_FloatValue
  | Node_RegexValue
  | Node_TagRefValue
  | Node_FieldRefValue
  | Node_Logical_
  | Node_Comparison_
  deriving DecidableEq, Repr

/-- The dynamic type of a non-nil `isNode_Value`. -/
def isNode_Value.wrapper : isNode_Value → WrapperType
  | .Node_StringValue _ => .Node_StringValue
  | .Node_BooleanValue _ => .Node_BooleanValue
  | .Node_IntegerValue _ => .Node_IntegerValue
  | .Node_UnsignedValue _ => .Node_UnsignedValue
  | .Node_FloatValue _ => .Node_FloatValue
  | .Node_RegexValue _ => .Node_RegexValue
  | .Node_TagRefValue _ => .Node_TagRefValue
  | .Node_FieldRefValue _ => .Node_FieldRefValue
  | .Node_Logical_ _ => .Node_Logical_
  | .Node_Comparison_ _ => .Node_Comparison_

/-- The Go types of the wrappers' single fields. -/
inductive GoType where
  | string
  | bool
  | int64
  | uint64
  | float64
  | Node_Logical
  | Node_Comparison
  | Node_Type
  | sliceOfNodePtr
  | nodePtr
  deriving DecidableEq, Repr

/-- The type of the one field each wrapper struct declares. -/
def WrapperType.fieldType : WrapperType → GoType
  | .Node_StringValue => .string
  | .Node_BooleanValue => .bool
  | .Node_IntegerValue => .int64
  | .Node_UnsignedValue => .uint64
  | .Node_FloatValue => .float64
  | .Node_RegexValue => .string
  | .Node_TagRefValue => .string
  | .Node_FieldRefValue => .string
  | .Node_Logical_ => .Node_Logical
  | .Node_Comparison_ => .Node_Comparison

/-- The comment on `Node.Value`: "Types that are assignable to Value", in the
order listed. -/
def assignableToValue : List WrapperType :=
  [ .Node_StringValue, .Node_BooleanValue, .Node_IntegerValue, .Node_UnsignedValue,
    .Node_FloatValue, .Node_RegexValue, .Node_TagRefValue, .Node_FieldRefValue,
    .Node_Logical_, .Node_Comparison_ ]

/-- The method declarations `func (*T) isNode_Value() {}`, in the order written. -/
def isNode_ValueImplementers : List WrapperType :=
  [ .Node_StringValue, .Node_BooleanValue, .Node_IntegerValue, .Node_UnsignedValue,
    .Node_FloatValue, .Node_RegexValue, .Node_TagRefValue, .Node_FieldRefValue,
    .Node_Logical_, .Node_Comparison_ ]

/-- The slice `file_predicate_proto_msgTypes[0].OneofWrappers` assigned in
`file_predicate_proto_init`. -/
def OneofWrappers : List WrapperType :=
  [ .Node_StringValue, .Node_BooleanValue, .Node_IntegerValue, .Node_UnsignedValue,
    .Node_FloatValue, .Node_RegexValue, .Node_TagRefValue, .Node_FieldRefValue,
    .Node_Logical_, .Node_Comparison_ ]

/-- The payload kinds the specification lists for `value`, in its order. -/
inductive SpecVariant where
  | string
  | boolean
  | signedInteger
  | unsignedInteger
  | floatingPoint
  | regexPattern
  | tagRefName
  | fieldRefName
  | logicalOperator
  | comparisonOperator
  deriving DecidableEq, Repr

/-- The specification's list of payload variants. -/
def specVariants : List SpecVariant :=
  [ .string, .boolean, .signedInteger, .unsignedInteger, .floatingPoint,
    .regexPattern, .tagRefName, .fieldRefName, .logicalOperator, .comparisonOperator ]

/-- The Go type that carries each listed variant. -/
def SpecVariant.goType : SpecVariant → GoType
  | .string => .string
  | .boolean => .bool
  | .signedInteger => .int64
  | .unsignedInteger => .uint64
  | .floatingPoint => .float64
  | .regexPattern => .string
  | .tagRefName => .string
  | .fieldRefName => .string
  | .logicalOperator => .Node_Logical
  | .comparisonOperator => .Node_Comparison

/-! ## Struct tags -/

/-- The wire types a struct tag names. -/
inductive WireKind where
  | varint
  | fixed64
  | bytes
  deriving DecidableEq, Repr

/-- The number protobuf gives each wire type in a field key. -/
def WireKind.number : WireKind → Nat
  | .varint => 0
  | .fixed64 => 1
  | .bytes => 2

/-- One `protobuf:"..."` struct tag with the Go field it stands on: wire type,
field number, cardinality (`rep` or `opt`), the `name=` entry, the field's Go
type, and whether the tag says `oneof`. -/
structure FieldTag where
  goField : String
  wire : WireKind
  number : Nat
  repeated : Bool
  name : String
  goType : GoType
  oneof : Bool
  deriving DecidableEq, Repr

/-- The struct tags of `Node` and of the ten wrapper structs, in source order. -/
def nodeFieldTags : List FieldTag :=
  [ ⟨"NodeType", .varint, 1, false, "node_type", .Node_Type, false⟩,
    ⟨"Children", .bytes, 2, true, "children", .sliceOfNodePtr, false⟩,
    ⟨"StringValue", .bytes, 3, false, "StringValue", .string, true⟩,
    ⟨"BooleanValue", .varint, 4, false, "BooleanValue", .bool, true⟩,
    ⟨"IntegerValue", .varint, 5, false, "IntegerValue", .int64, true⟩,
    ⟨"UnsignedValue", .varint, 6, false, "UnsignedValue", .uint64, true⟩,
    ⟨"FloatValue", .fixed64, 7, false, "FloatValue", .float64, true⟩,
    ⟨"RegexValue", .bytes, 8, false, "RegexValue", .string, true⟩,
    ⟨"TagRefValue", .bytes, 9, false, "TagRefValue", .string, true⟩,
    ⟨"FieldRefValue", .bytes, 10, false, "FieldRefValue", .string, true⟩,
    ⟨"Logical", .varint, 11, false, "logical", .Node_Logical, true⟩,
    ⟨"Comparison", .varint, 12, false, "comparison", .Node_Comparison, true⟩ ]

/-- The struct tag of `Predicate.Root`. -/
def predicateFieldTags : List FieldTag :=
  [ ⟨"Root", .bytes, 1, false, "root", .nodePtr, false⟩ ]

/-- The field number a wrapper's struct tag carries. -/
def WrapperType.fieldNumber : WrapperType → Nat
  | .Node_StringValue => 3
  | .Node_BooleanValue => 4
  | .Node_IntegerValue => 5
  | .Node_UnsignedValue => 6
  | .Node_FloatValue => 7
  | .Node_RegexValue => 8
  | .Node_TagRefValue => 9
  | .Node_FieldRefValue => 10
  | .Node_Logical_ => 11
  | .Node_Comparison_ => 12

/-- The wire type a wrapper's struct tag carries. -/
def WrapperType.wire : WrapperType → WireKind
  | .Node_StringValue => .bytes
  | .Node_BooleanValue => .varint
  | .Node_IntegerValue => .varint
  | .Node_UnsignedValue => .varint
  | .Node_FloatValue => .fixed64
  | .Node_RegexValue => .bytes
  | .Node_TagRefValue => .bytes
  | .Node_FieldRefValue => .bytes
  | .Node_Logical_ => .varint
  | .Node_Comparison_ => .varint

/-! ## Wire encoding

The struct tags say `proto3` and give each field a number and a wire type; the
bytes are produced and read by the protobuf runtime.  What follows is that
runtime's encoding for this message: base-128 varints, little-endian fixed64,
length-delimited bytes, one key `number * 8 + wiretype` before every field.
A byte is a `Nat` below 256. -/

/-- Go `uint64(v)` for a signed `v`: the value modulo `2^64`. -/
def uint64OfInt (v : Int) : Nat := (v % 18446744073709551616).toNat

/-- Go `int32(v)` for `v : uint64`: the low 32 bits, two's complement. -/
def int32OfUint64 (v : Nat) : Int :=
  if v % 4294967296 < 2147483648 then ((v % 4294967296 : Nat) : Int)
  else ((v % 4294967296 : Nat) : Int) - 4294967296

/-- Go `int64(v)` for `v : uint64`: two's complement. -/
def int64OfUint64 (v : Nat) : Int :=
  if v % 18446744073709551616 < 9223372036854775808 then ((v % 18446744073709551616 : Nat) : Int)
  else ((v % 18446744073709551616 : Nat) : Int) - 18446744073709551616

/-- `protowire.AppendVarint`, at most `k` bytes. -/
def appendVarintN : Nat → Nat → List Nat
  | 0, _ => []
  | k + 1, v => if v < 128 then [v] else (v % 128 + 128) :: appendVarintN k (v / 128)

/-- `protowire.AppendVarint`: a `uint64` takes at most ten bytes. -/
def appendVarint (v : Nat) : List Nat := appendVarintN 10 v

/-- `protowire.AppendTag`: the key of field `num` with wire type `w`. -/
def appendTag (num : Nat) (w : WireKind) : List Nat := appendVarint (num * 8 + w.number)

/-- `protowire.AppendBytes` / `AppendString`: length, then the bytes. -/
def appendBytes (v : List Nat) : List Nat := appendVarint v.length ++ v

/-- `protowire.AppendFixed64`: eight bytes, least significant first. -/
def appendFixed64 (v : Nat) : List Nat :=
  [ v % 256, v / 256 % 256, v / 65536 % 256, v / 16777216 % 256,
    v / 4294967296 % 256, v / 1099511627776 % 256, v / 281474976710656 % 256,
    v / 72057594037927936 % 256 ]

/-- `protowire.ConsumeVarint` with `k` bytes still allowed: the value and the
bytes left, `none` on truncated input or when a tenth byte exceeds 1. -/
def consumeVarintN : Nat → List Nat → Option (Nat × List Nat)
  | 0, _ => none
  | _ + 1, [] => none
  | k + 1, b :: bs =>
    if b < 128 then (if k = 0 ∧ 2 ≤ b then none else some (b, bs))
    else
      match consumeVarintN k bs with
      | none => none
      | some (v, r) => some (b % 128 + 128 * v, r)

/-- `protowire.ConsumeVarint`. -/
def consumeVarint (b : List Nat) : Option (Nat × List Nat) := consumeVarintN 10 b

/-- `protowire.ConsumeBytes`: a varint length `m`, then `m` bytes. -/
def consumeBytes (b : List Nat) : Option (List Nat × List Nat) :=
  match consumeVarint b with
  | none => none
  | some (m, r) => if m ≤ r.length then some (r.take m, r.drop m) else none

/-- `protowire.ConsumeFixed64`. -/
def consumeFixed64 : List Nat → Option (Nat × List Nat)
  | b0 :: b1 :: b2 :: b3 :: b4 :: b5 :: b6 :: b7 :: r =>
    some (b0 + 256 * b1 + 65536 * b2 + 16777216 * b3 + 4294967296 * b4
      + 1099511627776 * b5 + 281474976710656 * b6 + 72057594037927936 * b7, r)
  | _ => none

/-- `protowire.ConsumeFixed32`. -/
def consumeFixed32 : List Nat → Option (Nat × List Nat)
  | b0 :: b1 :: b2 :: b3 :: r => some (b0 + 256 * b1 + 65536 * b2 + 16777216 * b3, r)
  | _ => none

/-- `protowire.ConsumeTag`: field number and wire type of a key; the number must
lie in `1 .. MaxInt32`. -/
def consumeTag (b : List Nat) : Option (Nat × Nat × List Nat) :=
  match consumeVarint b with
  | none => none
  | some (x, r) => if x / 8 < 1 ∨ 2147483647 < x / 8 then none else some (x / 8, x % 8, r)

mutual
/-- `protowire.ConsumeFieldValue` (`consumeFieldValueD`): the bytes left after
the value of a field the message does not know.  `depth` is how many nested
groups may still open, `fuel` bounds the loop of a group by the input length. -/
def consumeFieldValueD : Nat → Nat → Nat → List Nat → Nat → Option (List Nat)
  | fuel, num, typ, b, depth =>
    if typ = 0 then (consumeVarint b).map Prod.snd
    else if typ = 1 then (consumeFixed64 b).map Prod.snd
    else if typ = 2 then (consumeBytes b).map Prod.snd
    else if typ = 5 then (consumeFixed32 b).map Prod.snd
    else if typ = 3 then
      match fuel, depth with
      | fuel1 + 1, depth1 + 1 => consumeGroup fuel1 num b depth1
      | _, _ => none
    else none
/-- The loop of `consumeFieldValueD` for a start-group key of field `num`: skip
fields up to the matching end-group key. -/
def consumeGroup : Nat → Nat → List Nat → Nat → Option (List Nat)
  | 0, _, _, _ => none
  | fuel + 1, num, b, depth =>
    match consumeTag b with
    | none => none
    | some (num2, typ2, r) =>
      if typ2 = 4 then (if num = num2 then some r else none)
      else
        match consumeFieldValueD fuel num2 typ2 r depth with
        | none => none
        | some r2 => consumeGroup fuel num r2 depth
end

/-- `protowire.ConsumeFieldValue`, with `DefaultRecursionLimit = 10000` (groups
may nest 10001 deep).  Opening a group and reading a key each take one unit of
fuel and each use up a byte, so twice the length is enough. -/
def consumeFieldValue (num typ : Nat) (b : List Nat) : Option (List Nat) :=
  consumeFieldValueD (2 * b.length + 1) num typ b 10001

/-- A continuation byte of UTF-8. -/
def utf8Cont (b : Nat) : Bool := 128 ≤ b && b ≤ 191

/-- Go `utf8.Valid`: the bytes are well-formed UTF-8 (no overlong forms, no
surrogates, nothing above U+10FFFF). -/
def utf8Valid : List Nat → Bool
  | [] => true
  | b0 :: r0 =>
    if b0 < 128 then utf8Valid r0
    else
      match r0 with
      | [] => false
      | b1 :: r1 =>
        if 194 ≤ b0 ∧ b0 ≤ 223 then utf8Cont b1 && utf8Valid r1
        else
          match r1 with
          | [] => false
          | b2 :: r2 =>
            if 224 ≤ b0 ∧ b0 ≤ 239 then
              (if b0 = 224 then 160 ≤ b1 && b1 ≤ 191
               else if b0 = 237 then 128 ≤ b1 && b1 ≤ 159
               else utf8Cont b1) && utf8Cont b2 && utf8Valid r2
            else
              match r2 with
              | [] => false
              | b3 :: r3 =>
                if 240 ≤ b0 ∧ b0 ≤ 244 then
                  (if b0 = 240 then 144 ≤ b1 && b1 ≤ 191
                   else if b0 = 244 then 128 ≤ b1 && b1 ≤ 143
                   else utf8Cont b1) && utf8Cont b2 && utf8Cont b3 && utf8Valid r3
                else false

/-- The field of a oneof wrapper on the wire: its key from the struct tag, then
the payload in the tag's wire type. -/
def isNode_Value.marshal : isNode_Value → List Nat
  | .Node_StringValue v => appendTag 3 .bytes ++ appendBytes v
  | .Node_BooleanValue v => appendTag 4 .varint ++ appendVarint (if v then 1 else 0)
  | .Node_IntegerValue v => appendTag 5 .varint ++ appendVarint (uint64OfInt v)
  | .Node_UnsignedValue v => appendTag 6 .varint ++ appendVarint v
  | .Node_FloatValue v => appendTag 7 .fixed64 ++ appendFixed64 v
  | .Node_RegexValue v => appendTag 8 .bytes ++ appendBytes v
  | .Node_TagRefValue v => appendTag 9 .bytes ++ appendBytes v
  | .Node_FieldRefValue v => appendTag 10 .bytes ++ appendBytes v
  | .Node_Logical_ v => appendTag 11 .varint ++ appendVarint (uint64OfInt v)
  | .Node_Comparison_ v => appendTag 12 .varint ++ appendVarint (uint64OfInt v)

/-- The field `node_type` on the wire: left out when zero, as proto3 does for
a field without presence. -/
def marshalNodeType (t : Node_Type) : List Nat :=
  if t = 0 then [] else appendTag 1 .varint ++ appendVarint (uint64OfInt t)

/-- The oneof `value` on the wire: the member that is set, nothing for the nil
interface. -/
def marshalValue : Option isNode_Value → List Nat
  | none => []
  | some w => w.marshal

mutual
/-- The bytes of a `Node`: `node_type`, every child as a length-delimited
field 2, then the oneof member that is set. -/
def Node.marshal : Node → List Nat
  | .mk t cs v => marshalNodeType t ++ Node.marshalChildren cs ++ marshalValue v
/-- The repeated field `children`. -/
def Node.marshalChildren : List Node → List Nat
  | [] => []
  | c :: cs => appendTag 2 .bytes ++ appendBytes c.marshal ++ Node.marshalChildren cs
end

/-- The bytes of a `Predicate`: `root` as a length-delimited field 1 when the
pointer is not nil. -/
def Predicate.marshal (p : Predicate) : List Nat :=
  match p.Root with
  | none => []
  | some n => appendTag 1 .bytes ++ appendBytes n.marshal

/-- The strings of a oneof wrapper are valid UTF-8 (the check proto3 makes on
every `string` field, when writing and when reading). -/
def isNode_Value.stringsValid : isNode_Value → Bool
  | .Node_StringValue v => utf8Valid v
  | .Node_RegexValue v => utf8Valid v
  | .Node_TagRefValue v => utf8Valid v
  | .Node_FieldRefValue v => utf8Valid v
  | _ => true

/-- The strings of the oneof slot are valid UTF-8. -/
def valueStringsValid : Option isNode_Value → Bool
  | none => true
  | some w => w.stringsValid

mutual
/-- Every string in the tree is valid UTF-8. -/
def Node.stringsValid : Node → Bool
  | .mk _ cs v => Node.stringsValidAll cs && valueStringsValid v
/-- Every string in every tree of the list is valid UTF-8. -/
def Node.stringsValidAll : List Node → Bool
  | [] => true
  | c :: cs => c.stringsValid && Node.stringsValidAll cs
end

/-- `proto.Marshal` of a `Predicate`: the bytes, or `none` for the error the
runtime returns when a string is not valid UTF-8. -/
def Marshal (p : Predicate) : Option (List Nat) :=
  match p.Root with
  | none => some p.marshal
  | some n => if n.stringsValid then some p.marshal else none

/-- What the unmarshal function of one field reports. -/
inductive FieldResult (α : Type) where
  | ok (msg : α) (rest : List Nat)
  | unknown
  | error

/-- Stores a decoded oneof member: the interface slot is overwritten. -/
def Node.setValue (n : Node) (w : isNode_Value) : Node := .mk n.NodeType n.Children (some w)

/-- The unmarshal functions of the fields of `Node`, by field number and wire
type.  A number that is not in the struct tags, or a known number with another
wire type, is reported as unknown.  `child` unmarshals the bytes of a nested
`Node` into a fresh message. -/
def Node.unmarshalField (child : List Nat → Option Node) (num typ : Nat) (b : List Nat)
    (n : Node) : FieldResult Node :=
  if num = 1 ∧ typ = 0 then
    match consumeVarint b with
    | none => .error
    | some (v, r) => .ok (.mk (int32OfUint64 v) n.Children n.Value) r
  else if num = 2 ∧ typ = 2 then
    match consumeBytes b with
    | none => .error
    | some (v, r) =>
      match child v with
      | none => .error
      | some c => .ok (.mk n.NodeType (n.Children ++ [c]) n.Value) r
  else if num = 3 ∧ typ = 2 then
    match consumeBytes b with
    | none => .error
    | some (v, r) => if utf8Valid v then .ok (n.setValue (.Node_StringValue v)) r else .error
  else if num = 4 ∧ typ = 0 then
    match consumeVarint b with
    | none => .error
    | some (v, r) => .ok (n.setValue (.Node_BooleanValue (v != 0))) r
  else if num = 5 ∧ typ = 0 then
    match consumeVarint b with
    | none => .error
    | some (v, r) => .ok (n.setValue (.Node_IntegerValue (int64OfUint64 v))) r
  else if num = 6 ∧ typ = 0 then
    match consumeVarint b with
    | none => .error
    | some (v, r) => .ok (n.setValue (.Node_UnsignedValue v)) r
  else if num = 7 ∧ typ = 1 then
    match consumeFixed64 b with
    | none => .error
    | some (v, r) => .ok (n.setValue (.Node_FloatValue v)) r
  else if num = 8 ∧ typ = 2 then
    match consumeBytes b with
    | none => .error
    | some (v, r) => if utf8Valid v then .ok (n.setValue (.Node_RegexValue v)) r else .error
  else if num = 9 ∧ typ = 2 then
    match consumeBytes b with
    | none => .error
    | some (v, r) => if utf8Valid v then .ok (n.setValue (.Node_TagRefValue v)) r else .error
  else if num = 10 ∧ typ = 2 then
    match consumeBytes b with
    | none => .error
    | some (v, r) => if utf8Valid v then .ok (n.setValue (.Node_FieldRefValue v)) r else .error
  else if num = 11 ∧ typ = 0 then
    match consumeVarint b with
    | none => .error
    | some (v, r) => .ok (n.setValue (.Node_Logical_ (int32OfUint64 v))) r
  else if num = 12 ∧ typ = 0 then
    match consumeVarint b with
    | none => .error
    | some (v, r) => .ok (n.setValue (.Node_Comparison_ (int32OfUint64 v))) r
  else .unknown

/-- The key at the head of a message body, as the unmarshal loop reads it: a
varint whose field number lies in `1 .. 2^29 - 1`; an end-group key ends in an
error, there being no group to close. -/
def consumeKey (b : List Nat) : Option (Nat × Nat × List Nat) :=
  match consumeVarint b with
  | none => none
  | some (x, r) =>
    if x / 8 < 1 ∨ 536870911 < x / 8 then none
    else if x % 8 = 4 then none
    else some (x / 8, x % 8, r)

/-- `protowire.DefaultRecursionLimit`, the depth `proto.Unmarshal` starts
from. -/
def DefaultRecursionLimit : Nat := 10000

/-- The guard at the head of the runtime's `unmarshalPointer`: `opts.depth--`,
then the error `errRecursionDepth` when the depth has become negative.  `body`
is the rest of the call, run with the decremented depth. -/
def enterMessage {α : Type} (depth : Nat) (body : Nat → Option α) : Option α :=
  match depth with
  | 0 => none
  | d + 1 => body d

/-- The unmarshal loop of the runtime for a `Node`: read a key, hand the field
to its unmarshal function, skip what is unknown, until the input is used up.
Fields are merged into `n` in wire order.  `depth` is `opts.depth` inside this
message; a child is entered through the guard with that depth.  `fuel` bounds
the iterations; the input length is enough, every iteration consuming a byte. -/
def Node.unmarshalInto : Nat → Nat → List Nat → Node → Option Node
  | _, _, [], n => some n
  | _, 0, _ :: _, _ => none
  | depth, fuel + 1, b :: bs, n =>
    match consumeKey (b :: bs) with
    | none => none
    | some (num, typ, r) =>
      match Node.unmarshalField
          (fun v => enterMessage depth fun d => Node.unmarshalInto d fuel v Node.zero)
          num typ r n with
      | .error => none
      | .ok n1 r1 => Node.unmarshalInto depth fuel r1 n1
      | .unknown =>
        match consumeFieldValue num typ r with
        | none => none
        | some r1 => Node.unmarshalInto depth fuel r1 n

/-- `proto.Unmarshal` into a `Node`: the bytes are merged into a fresh message,
starting from the default recursion limit; `none` is the decode error. -/
def Node.unmarshal (b : List Nat) : Option Node :=
  enterMessage DefaultRecursionLimit fun d => Node.unmarshalInto d b.length b Node.zero

/-- The unmarshal function of the one field of `Predicate`.  A second `root`
on the wire is merged into the first, as for every singular message field.  The
root is entered through the guard with the depth of the `Predicate`. -/
def Predicate.unmarshalField (depth num typ : Nat) (b : List Nat) (p : Predicate) :
    FieldResult Predicate :=
  if num = 1 ∧ typ = 2 then
    match consumeBytes b with
    | none => .error
    | some (v, r) =>
      match enterMessage depth fun d =>
          Node.unmarshalInto d v.length v (p.Root.getD Node.zero) with
      | none => .error
      | some n => .ok ⟨some n⟩ r
  else .unknown

/-- The unmarshal loop for a `Predicate`, at depth `depth`. -/
def Predicate.unmarshalInto : Nat → Nat → List Nat → Predicate → Option Predicate
  | _, _, [], p => some p
  | _, 0, _ :: _, _ => none
  | depth, fuel + 1, b :: bs, p =>
    match consumeKey (b :: bs) with
    | none => none
    | some (num, typ, r) =>
      match Predicate.unmarshalField depth num typ r p with
      | .error => none
      | .ok p1 r1 => Predicate.unmarshalInto depth fuel r1 p1
      | .unknown =>
        match consumeFieldValue num typ r with
        | none => none
        | some r1 => Predicate.unmarshalInto depth fuel r1 p

/-- `proto.Unmarshal` into a `Predicate`: the message is reset, then the bytes
are merged into it, starting from the default recursion limit; `none` is the
decode error. -/
def Unmarshal (b : List Nat) : Option Predicate :=
  enterMessage DefaultRecursionLimit fun d =>
    Predicate.unmarshalInto d b.length b Predicate.zero

mutual
/-- The nesting depth of a tree: 1 for a node without children. -/
def Node.depth : Node → Nat
  | .mk _ cs _ => Node.depthAll cs + 1
/-- The largest nesting depth among the trees of a list, 0 for the empty list. -/
def Node.depthAll : List Node → Nat
  | [] => 0
  | c :: cs => max c.depth (Node.depthAll cs)
end

/-- The nesting depth of a `Predicate`: the message itself, then its root. -/
def Predicate.depth (p : Predicate) : Nat :=
  match p.Root with
  | none => 1
  | some n => n.depth + 1

/-! ## Well-formed values -/

/-- The payload of a wrapper lies in the range of its Go type (`int64`,
`uint64`, the 64 bits of a `float64`, `int32` for the two enums). -/
def isNode_Value.inRange : isNode_Value → Bool
  | .Node_IntegerValue v => decide (isInt64 v)
  | .Node_UnsignedValue v => decide (isUint64 v)
  | .Node_FloatValue v => decide (isUint64 v)
  | .Node_Logical_ v => decide (isInt32 v)
  | .Node_Comparison_ v => decide (isInt32 v)
  | _ => true

/-- The payload of the oneof slot lies in the range of its Go type. -/
def valueInRange : Option isNode_Value → Bool
  | none => true
  | some w => w.inRange

mutual
/-- Every number in the tree lies in the range of its Go type. -/
def Node.inRange : Node → Bool
  | .mk t cs v => decide (isInt32 t) && Node.inRangeAll cs && valueInRange v
/-- Every number in every tree of the list lies in the range of its Go type. -/
def Node.inRangeAll : List Node → Bool
  | [] => true
  | c :: cs => c.inRange && Node.inRangeAll cs
end

/-- A `Node` value of the Go program that proto3 can carry: numbers in the range
of their Go types, strings valid UTF-8, and an encoding whose length fits the
64-bit length field. -/
def Node.WellFormed (n : Node) : Prop :=
  n.inRange = true ∧ n.stringsValid = true ∧ n.marshal.length < 18446744073709551616

/-- A well-formed `Predicate`: its root, when there is one, is well-formed. -/
def Predicate.WellFormed (p : Predicate) : Prop :=
  match p.Root with
  | none => True
  | some n => n.WellFormed

/-- A well-formed oneof member. -/
def isNode_Value.WellFormed (w : isNode_Value) : Prop :=
  w.inRange = true ∧ w.stringsValid = true ∧ w.marshal.length < 18446744073709551616

/-- What a message holds after the fields of `t` have been read into `n`: a
non-zero `node_type` replaces the old one, children are appended, a oneof member
that is set replaces the old one. -/
def Node.merge (n t : Node) : Node :=
  .mk (if t.NodeType = 0 then n.NodeType else t.NodeType) (n.Children ++ t.Children)
    (t.Value.orElse fun _ => n.Value)

/-- Several oneof members one after the other on the wire. -/
def marshalValues : List isNode_Value → List Nat
  | [] => []
  | w :: ws => w.marshal ++ marshalValues ws

/-- The type switch `x.GetValue().(*T)` of the getters: whether the interface
slot of `n` holds a wrapper of type `k`. -/
def Node.holds (n : Node) (k : WrapperType) : Bool :=
  match n.Value with
  | none => false
  | some w => decide (w.wrapper = k)

/-- The constants of `Node_Type` in the order the specification lists the node
kinds: LogicalExpression, ComparisonExpression, ParenExpression, TagRef,
Literal, FieldRef. -/
def declaredNodeTypes : List Node_Type :=
  [ Node_TypeLogicalExpression, Node_TypeComparisonExpression, Node_TypeParenExpression,
    Node_TypeTagRef, Node_TypeLiteral, Node_TypeFieldRef ]

/-- The constants of `Node_Comparison` in the order the specification lists the
comparison operators: Equal, NotEqual, StartsWith, Regex, NotRegex, Less,
LessEqual, Greater, GreaterEqual. -/
def declaredComparisons : List Node_Comparison :=
  [ Node_ComparisonEqual, Node_ComparisonNotEqual, Node_ComparisonStartsWith,
    Node_ComparisonRegex, Node_ComparisonNotRegex, Node_ComparisonLess,
    Node_ComparisonLessEqual, Node_ComparisonGreater, Node_ComparisonGreaterEqual ]

/-- The constants of `Node_Logical` in the order the specification lists the
logical operators: And, Or. -/
def declaredLogicals : List Node_Logical := [ Node_LogicalAnd, Node_LogicalOr ]

/-- The wire type protobuf uses for a field of each Go type: varint for enums,
`bool` and the 64-bit integers, fixed64 for `float64`, length-delimited bytes for
strings and messages. -/
def GoType.wire : GoType → WireKind
  | .string => .bytes
  | .bool => .varint
  | .int64 => .varint
  | .uint64 => .varint
  | .float64 => .fixed64
  | .Node_Logical => .varint
  | .Node_Comparison => .varint
  | .Node_Type => .varint
  | .sliceOfNodePtr => .bytes
  | .nodePtr => .bytes

/-! ## Arity -/

/-- The arity rule of the specification for a node of type `t` with `k`
children: two for a comparison or logical expression, one for a parenthesised
expression, none for a tag reference, field reference or literal. -/
def arityRule (t : Node_Type) (k : Nat) : Bool :=
  if t = Node_TypeComparisonExpression ∨ t = Node_TypeLogicalExpression then decide (k = 2)
  else if t = Node_TypeParenExpression then decide (k = 1)
  else if t = Node_TypeTagRef ∨ t = Node_TypeFieldRef ∨ t = Node_TypeLiteral then decide (k = 0)
  else true

mutual
/-- The arity rule holds at every depth of the tree. -/
def Node.arityOk : Node → Bool
  | .mk t cs _ => arityRule t cs.length && Node.arityOkAll cs
/-- The arity rule holds at every depth of every tree of the list. -/
def Node.arityOkAll : List Node → Bool
  | [] => true
  | c :: cs => c.arityOk && Node.arityOkAll cs
end

/-! ## Evaluation

`predicate.pb.go` holds the data model only; the evaluator is described in the
specification (§4.3, §6, §7). -/

/-- Modelled from the spec: the evaluator's values.  The file has no evaluator;
§4.3 names scalars of type string, boolean, signed, unsigned and float, and
regular-expression patterns. -/
inductive TypedValue where
  | string (v : GoString)
  | boolean (v : Bool)
  | integer (v : Int)
  | unsigned (v : Nat)
  | float (bits : Nat)
  | regex (pattern : GoString)
  deriving DecidableEq, Repr

/-- Modelled from the spec: the record of §6, which the storage engine supplies:
`lookupTag(name) -> optional<string>` and `lookupField(name) -> optional<TypedValue>`. -/
structure Record where
  lookupTag : GoString → Option GoString
  lookupField : GoString → Option TypedValue

/-- Modelled from the spec: the error kinds of §7 an evaluation can end in. -/
inductive EvalError where
  | TypeMismatch
  | InvalidPattern
  | MalformedPredicate
  deriving DecidableEq, Repr

/-- Modelled from the spec: what an operand evaluates to (§4.3): a value, or the
explicit "missing" sentinel of a tag the record does not have. -/
inductive Operand where
  | missing
  | present (v : TypedValue)
  deriving DecidableEq, Repr

/-- Modelled from the spec: what the specification describes without fixing and
the file does not implement, taken as given by the evaluator: `compare`, the
comparison of two values that are present (§4.3: value equality, prefix test,
regular-expression match, numeric ordering with promotion), and `absentField`,
the "explicit error" of §4.3 for a field reference the record cannot satisfy. -/
structure EvalGiven where
  compare : Node_Comparison → TypedValue → TypedValue → Except EvalError Bool
  absentField : EvalError

/-- Modelled from the spec: operand evaluation (§4.3).  A literal evaluates to
its scalar, a tag reference to the record's tag or to the "missing" sentinel, a
field reference to the record's typed field.  A leaf has no children and exactly
one payload (§3, invariant 4). -/
def evalOperand (g : EvalGiven) (r : Record) : Node → Except EvalError Operand
  | .mk _ [] (some (.Node_StringValue v)) => .ok (.present (.string v))
  | .mk _ [] (some (.Node_BooleanValue v)) => .ok (.present (.boolean v))
  | .mk _ [] (some (.Node_IntegerValue v)) => .ok (.present (.integer v))
  | .mk _ [] (some (.Node_UnsignedValue v)) => .ok (.present (.unsigned v))
  | .mk _ [] (some (.Node_FloatValue v)) => .ok (.present (.float v))
  | .mk _ [] (some (.Node_RegexValue v)) => .ok (.present (.regex v))
  | .mk _ [] (some (.Node_TagRefValue x)) =>
    match r.lookupTag x with
    | some s => .ok (.present (.string s))
    | none => .ok .missing
  | .mk _ [] (some (.Node_FieldRefValue x)) =>
    match r.lookupField x with
    | some v => .ok (.present v)
    | none => .error g.absentField
  | _ => .error .MalformedPredicate

/-- Modelled from the spec: applying a comparison operator (§4.3).  A comparison
against "missing" is `false`, except under `NotEqual`, where it is `true`. -/
def applyComparison (g : EvalGiven) (op : Node_Comparison) :
    Operand → Operand → Except EvalError Bool
  | .present a, .present b => g.compare op a b
  | _, _ => .ok (decide (op = Node_ComparisonNotEqual))

/-- Modelled from the spec: the evaluator of §4.3, by recursive descent.  A
comparison evaluates both operands and applies the operator; a logical
expression evaluates its left child and the right one only when the left does
not decide the result; a parenthesised expression evaluates its child; an error
of a subtree ends the evaluation. -/
def evaluate (g : EvalGiven) (r : Record) : Node → Except EvalError Bool
  | .mk _ [l, rhs] (some (.Node_Comparison_ op)) =>
    match evalOperand g r l with
    | .error e => .error e
    | .ok a =>
      match evalOperand g r rhs with
      | .error e => .error e
      | .ok b => applyComparison g op a b
  | .mk _ [l, rhs] (some (.Node_Logical_ op)) =>
    match evaluate g r l with
    | .error e => .error e
    | .ok a =>
      if op = Node_LogicalAnd then (if a then evaluate g r rhs else .ok false)
      else if op = Node_LogicalOr then (if a then .ok true else evaluate g r rhs)
      else .error .MalformedPredicate
  | .mk _ [c] none => evaluate g r c
  | _ => .error .MalformedPredicate

/-! ## Example values -/

/-- The tree of the specification's scenario,
`(TagRef("host") Equal "a") And (FieldRef("cpu") GreaterEqual 0.9)`; the float
is the bit pattern `0x3FECCCCCCCCCCCCD` of `0.9`. -/
def scenarioPredicate : Predicate :=
  ⟨some (.mk Node_TypeLogicalExpression
    [ .mk Node_TypeComparisonExpression
        [ .mk Node_TypeTagRef [] (some (.Node_TagRefValue [104, 111, 115, 116])),
          .mk Node_TypeLiteral [] (some (.Node_StringValue [97])) ]
        (some (.Node_Comparison_ Node_ComparisonEqual)),
      .mk Node_TypeComparisonExpression
        [ .mk Node_TypeFieldRef [] (some (.Node_FieldRefValue [99, 112, 117])),
          .mk Node_TypeLiteral [] (some (.Node_FloatValue 4606281698874543309)) ]
        (some (.Node_Comparison_ Node_ComparisonGreaterEqual)) ]
    (some (.Node_Logical_ Node_LogicalAnd)))⟩

/-- A tree that breaks the arity rule at two depths: a parenthesised expression
with three children, one of them a literal that has a child of its own. -/
def badArityNode : Node :=
  .mk Node_TypeParenExpression
    [ .mk Node_TypeLiteral [ .mk Node_TypeTagRef [] (some (.Node_TagRefValue [120])) ]
        (some (.Node_BooleanValue true)),
      .mk Node_TypeComparisonExpression [] (some (.Node_Comparison_ Node_ComparisonLess)),
      Node.zero ]
    none

/-- A number of parenthesised expressions, one inside the other, around `t`. -/
def parenChain : Nat → Node → Node
  | 0, t => t
  | d + 1, t => .mk Node_TypeParenExpression [parenChain d t] none

/-- The comparison `TagRef("host") Equal s` where the string literal `s` is the
single byte `0xff`, which is not UTF-8. -/
def badUtf8Predicate : Predicate :=
  ⟨some (.mk Node_TypeComparisonExpression
    [ .mk Node_TypeTagRef [] (some (.Node_TagRefValue [104, 111, 115, 116])),
      .mk Node_TypeLiteral [] (some (.Node_StringValue [255])) ]
    (some (.Node_Comparison_ Node_ComparisonEqual)))⟩

/-- The boolean literal `true`, a leaf. -/
def trueLiteral : Node := .mk Node_TypeLiteral [] (some (.Node_BooleanValue true))

/-- A record without tags and without fields. -/
def emptyRecord : Record := ⟨fun _ => none, fun _ => none⟩

/-- A value comparison that knows equality of strings only. -/
def stringEquality : EvalGiven :=
  ⟨fun op a b =>
    match a, b with
    | .string x, .string y =>
      if op = Node_ComparisonEqual then .ok (decide (x = y))
      else if op = Node_ComparisonNotEqual then .ok (decide (x ≠ y))
      else .error .TypeMismatch
    | _, _ => .error .TypeMismatch,
   .TypeMismatch⟩

/-! ## The raw file descriptor

`file_predicate_proto_rawDesc` holds the file's `FileDescriptorProto` in wire
form.  The runtime reads it with the same `protowire` routines as above; the
field numbers are those of `google/protobuf/descriptor.proto` (file: name 1,
package 2, message_type 4, enum_type 5; message: name 1, nested_type 3,
enum_type 4; enum: name 1, value 2; enum value: name 1, number 2). -/

/-- Go `var file_predicate_proto_rawDesc = []byte{...}`. -/
def file_predicate_proto_rawDesc : List Nat :=
  [
    0x0a, 0x0f, 0x70, 0x72, 0x65, 0x64, 0x69, 0x63, 0x61, 0x74, 0x65, 0x2e, 0x70, 0x72, 0x6f, 0x74,
    0x6f, 0x12, 0x1b, 0x69, 0x6e, 0x66, 0x6c, 0x75, 0x78, 0x64, 0x61, 0x74, 0x61, 0x2e, 0x70, 0x6c,
    0x61, 0x74, 0x66, 0x6f, 0x72, 0x6d, 0x2e, 0x73, 0x74, 0x6f, 0x72, 0x61, 0x67, 0x65, 0x22, 0xed,
    0x07, 0x0a, 0x04, 0x4e, 0x6f, 0x64, 0x65, 0x12, 0x43, 0x0a, 0x09, 0x6e, 0x6f, 0x64, 0x65, 0x5f,
    0x74, 0x79, 0x70, 0x65, 0x18, 0x01, 0x20, 0x01, 0x28, 0x0e, 0x32, 0x26, 0x2e, 0x69, 0x6e, 0x66,
    0x6c, 0x75, 0x78, 0x64, 0x61, 0x74, 0x61, 0x2e, 0x70, 0x6c, 0x61, 0x74, 0x66, 0x6f, 0x72, 0x6d,
    0x2e, 0x73, 0x74, 0x6f, 0x72, 0x61, 0x67, 0x65, 0x2e, 0x4e, 0x6f, 0x64, 0x65, 0x2e, 0x54, 0x79,
    0x70, 0x65, 0x52, 0x08, 0x6e, 0x6f, 0x64, 0x65, 0x54, 0x79, 0x70, 0x65, 0x12, 0x3d, 0x0a, 0x08,
    0x63, 0x68, 0x69, 0x6c, 0x64, 0x72, 0x65, 0x6e, 0x18, 0x02, 0x20, 0x03, 0x28, 0x0b, 0x32, 0x21,
    0x2e, 0x69, 0x6e, 0x66, 0x6c, 0x75, 0x78, 0x64, 0x61, 0x74, 0x61, 0x2e, 0x70, 0x6c, 0x61, 0x74,
    0x66, 0x6f, 0x72, 0x6d, 0x2e, 0x73, 0x74, 0x6f, 0x72, 0x61, 0x67, 0x65, 0x2e, 0x4e, 0x6f, 0x64,
    0x65, 0x52, 0x08, 0x63, 0x68, 0x69, 0x6c, 0x64, 0x72, 0x65, 0x6e, 0x12, 0x22, 0x0a, 0x0b, 0x53,
    0x74, 0x72, 0x69, 0x6e, 0x67, 0x56, 0x61, 0x6c, 0x75, 0x65, 0x18, 0x03, 0x20, 0x01, 0x28, 0x09,
    0x48, 0x00, 0x52, 0x0b, 0x53, 0x74, 0x72, 0x69, 0x6e, 0x67, 0x56, 0x61, 0x6c, 0x75, 0x65, 0x12,
    0x24, 0x0a, 0x0c, 0x42, 0x6f, 0x6f, 0x6c, 0x65, 0x61, 0x6e, 0x56, 0x61, 0x6c, 0x75, 0x65, 0x18,
    0x04, 0x20, 0x01, 0x28, 0x08, 0x48, 0x00, 0x52, 0x0c, 0x42, 0x6f, 0x6f, 0x6c, 0x65, 0x61, 0x6e,
    0x56, 0x61, 0x6c, 0x75, 0x65, 0x12, 0x24, 0x0a, 0x0c, 0x49, 0x6e, 0x74, 0x65, 0x67, 0x65, 0x72,
    0x56, 0x61, 0x6c, 0x75, 0x65, 0x18, 0x05, 0x20, 0x01, 0x28, 0x03, 0x48, 0x00, 0x52, 0x0c, 0x49,
    0x6e, 0x74, 0x65, 0x67, 0x65, 0x72, 0x56, 0x61, 0x6c, 0x75, 0x65, 0x12, 0x26, 0x0a, 0x0d, 0x55,
    0x6e, 0x73, 0x69, 0x67, 0x6e, 0x65, 0x64, 0x56, 0x61, 0x6c, 0x75, 0x65, 0x18, 0x06, 0x20, 0x01,
    0x28, 0x04, 0x48, 0x00, 0x52, 0x0d, 0x55, 0x6e, 0x73, 0x69, 0x67, 0x6e, 0x65, 0x64, 0x56, 0x61,
    0x6c, 0x75, 0x65, 0x12, 0x20, 0x0a, 0x0a, 0x46, 0x6c, 0x6f, 0x61, 0x74, 0x56, 0x61, 0x6c, 0x75,
    0x65, 0x18, 0x07, 0x20, 0x01, 0x28, 0x01, 0x48, 0x00, 0x52, 0x0a, 0x46, 0x6c, 0x6f, 0x61, 0x74,
    0x56, 0x61, 0x6c, 0x75, 0x65, 0x12, 0x20, 0x0a, 0x0a, 0x52, 0x65, 0x67, 0x65, 0x78, 0x56, 0x61,
    0x6c, 0x75, 0x65, 0x18, 0x08, 0x20, 0x01, 0x28, 0x09, 0x48, 0x00, 0x52, 0x0a, 0x52, 0x65, 0x67,
    0x65, 0x78, 0x56, 0x61, 0x6c, 0x75, 0x65, 0x12, 0x22, 0x0a, 0x0b, 0x54, 0x61, 0x67, 0x52, 0x65,
    0x66, 0x56, 0x61, 0x6c, 0x75, 0x65, 0x18, 0x09, 0x20, 0x01, 0x28, 0x09, 0x48, 0x00, 0x52, 0x0b,
    0x54, 0x61, 0x67, 0x52, 0x65, 0x66, 0x56, 0x61, 0x6c, 0x75, 0x65, 0x12, 0x26, 0x0a, 0x0d, 0x46,
    0x69, 0x65, 0x6c, 0x64, 0x52, 0x65, 0x66, 0x56, 0x61, 0x6c, 0x75, 0x65, 0x18, 0x0a, 0x20, 0x01,
    0x28, 0x09, 0x48, 0x00, 0x52, 0x0d, 0x46, 0x69, 0x65, 0x6c, 0x64, 0x52, 0x65, 0x66, 0x56, 0x61,
    0x6c, 0x75, 0x65, 0x12, 0x45, 0x0a, 0x07, 0x6c, 0x6f, 0x67, 0x69, 0x63, 0x61, 0x6c, 0x18, 0x0b,
    0x20, 0x01, 0x28, 0x0e, 0x32, 0x29, 0x2e, 0x69, 0x6e, 0x66, 0x6c, 0x75, 0x78, 0x64, 0x61, 0x74,
    0x61, 0x2e, 0x70, 0x6c, 0x61, 0x74, 0x66, 0x6f, 0x72, 0x6d, 0x2e, 0x73, 0x74, 0x6f, 0x72, 0x61,
    0x67, 0x65, 0x2e, 0x4e, 0x6f, 0x64, 0x65, 0x2e, 0x4c, 0x6f, 0x67, 0x69, 0x63, 0x61, 0x6c, 0x48,
    0x00, 0x52, 0x07, 0x6c, 0x6f, 0x67, 0x69, 0x63, 0x61, 0x6c, 0x12, 0x4e, 0x0a, 0x0a, 0x63, 0x6f,
    0x6d, 0x70, 0x61, 0x72, 0x69, 0x73, 0x6f, 0x6e, 0x18, 0x0c, 0x20, 0x01, 0x28, 0x0e, 0x32, 0x2c,
    0x2e, 0x69, 0x6e, 0x66, 0x6c, 0x75, 0x78, 0x64, 0x61, 0x74, 0x61, 0x2e, 0x70, 0x6c, 0x61, 0x74,
    0x66, 0x6f, 0x72, 0x6d, 0x2e, 0x73, 0x74, 0x6f, 0x72, 0x61, 0x67, 0x65, 0x2e, 0x4e, 0x6f, 0x64,
    0x65, 0x2e, 0x43, 0x6f, 0x6d, 0x70, 0x61, 0x72, 0x69, 0x73, 0x6f, 0x6e, 0x48, 0x00, 0x52, 0x0a,
    0x63, 0x6f, 0x6d, 0x70, 0x61, 0x72, 0x69, 0x73, 0x6f, 0x6e, 0x22, 0x8b, 0x01, 0x0a, 0x04, 0x54,
    0x79, 0x70, 0x65, 0x12, 0x19, 0x0a, 0x15, 0x54, 0x79, 0x70, 0x65, 0x4c, 0x6f, 0x67, 0x69, 0x63,
    0x61, 0x6c, 0x45, 0x78, 0x70, 0x72, 0x65, 0x73, 0x73, 0x69, 0x6f, 0x6e, 0x10, 0x00, 0x12, 0x1c,
    0x0a, 0x18, 0x54, 0x79, 0x70, 0x65, 0x43, 0x6f, 0x6d, 0x70, 0x61, 0x72, 0x69, 0x73, 0x6f, 0x6e,
    0x45, 0x78, 0x70, 0x72, 0x65, 0x73, 0x73, 0x69, 0x6f, 0x6e, 0x10, 0x01, 0x12, 0x17, 0x0a, 0x13,
    0x54, 0x79, 0x70, 0x65, 0x50, 0x61, 0x72, 0x65, 0x6e, 0x45, 0x78, 0x70, 0x72, 0x65, 0x73, 0x73,
    0x69, 0x6f, 0x6e, 0x10, 0x02, 0x12, 0x0e, 0x0a, 0x0a, 0x54, 0x79, 0x70, 0x65, 0x54, 0x61, 0x67,
    0x52, 0x65, 0x66, 0x10, 0x03, 0x12, 0x0f, 0x0a, 0x0b, 0x54, 0x79, 0x70, 0x65, 0x4c, 0x69, 0x74,
    0x65, 0x72, 0x61, 0x6c, 0x10, 0x04, 0x12, 0x10, 0x0a, 0x0c, 0x54, 0x79, 0x70, 0x65, 0x46, 0x69,
    0x65, 0x6c, 0x64, 0x52, 0x65, 0x66, 0x10, 0x05, 0x22, 0xe0, 0x01, 0x0a, 0x0a, 0x43, 0x6f, 0x6d,
    0x70, 0x61, 0x72, 0x69, 0x73, 0x6f, 0x6e, 0x12, 0x13, 0x0a, 0x0f, 0x43, 0x6f, 0x6d, 0x70, 0x61,
    0x72, 0x69, 0x73, 0x6f, 0x6e, 0x45, 0x71, 0x75, 0x61, 0x6c, 0x10, 0x00, 0x12, 0x16, 0x0a, 0x12,
    0x43, 0x6f, 0x6d, 0x70, 0x61, 0x72, 0x69, 0x73, 0x6f, 0x6e, 0x4e, 0x6f, 0x74, 0x45, 0x71, 0x75,
    0x61, 0x6c, 0x10, 0x01, 0x12, 0x18, 0x0a, 0x14, 0x43, 0x6f, 0x6d, 0x70, 0x61, 0x72, 0x69, 0x73,
    0x6f, 0x6e, 0x53, 0x74, 0x61, 0x72, 0x74, 0x73, 0x57, 0x69, 0x74, 0x68, 0x10, 0x02, 0x12, 0x13,
    0x0a, 0x0f, 0x43, 0x6f, 0x6d, 0x70, 0x61, 0x72, 0x69, 0x73, 0x6f, 0x6e, 0x52, 0x65, 0x67, 0x65,
    0x78, 0x10, 0x03, 0x12, 0x16, 0x0a, 0x12, 0x43, 0x6f, 0x6d, 0x70, 0x61, 0x72, 0x69, 0x73, 0x6f,
    0x6e, 0x4e, 0x6f, 0x74, 0x52, 0x65, 0x67, 0x65, 0x78, 0x10, 0x04, 0x12, 0x12, 0x0a, 0x0e, 0x43,
    0x6f, 0x6d, 0x70, 0x61, 0x72, 0x69, 0x73, 0x6f, 0x6e, 0x4c, 0x65, 0x73, 0x73, 0x10, 0x05, 0x12,
    0x17, 0x0a, 0x13, 0x43, 0x6f, 0x6d, 0x70, 0x61, 0x72, 0x69, 0x73, 0x6f, 0x6e, 0x4c, 0x65, 0x73,
    0x73, 0x45, 0x71, 0x75, 0x61, 0x6c, 0x10, 0x06, 0x12, 0x15, 0x0a, 0x11, 0x43, 0x6f, 0x6d, 0x70,
    0x61, 0x72, 0x69, 0x73, 0x6f, 0x6e, 0x47, 0x72, 0x65, 0x61, 0x74, 0x65, 0x72, 0x10, 0x07, 0x12,
    0x1a, 0x0a, 0x16, 0x43, 0x6f, 0x6d, 0x70, 0x61, 0x72, 0x69, 0x73, 0x6f, 0x6e, 0x47, 0x72, 0x65,
    0x61, 0x74, 0x65, 0x72, 0x45, 0x71, 0x75, 0x61, 0x6c, 0x10, 0x08, 0x22, 0x28, 0x0a, 0x07, 0x4c,
    0x6f, 0x67, 0x69, 0x63, 0x61, 0x6c, 0x12, 0x0e, 0x0a, 0x0a, 0x4c, 0x6f, 0x67, 0x69, 0x63, 0x61,
    0x6c, 0x41, 0x6e, 0x64, 0x10, 0x00, 0x12, 0x0d, 0x0a, 0x09, 0x4c, 0x6f, 0x67, 0x69, 0x63, 0x61,
    0x6c, 0x4f, 0x72, 0x10, 0x01, 0x42, 0x07, 0x0a, 0x05, 0x76, 0x61, 0x6c, 0x75, 0x65, 0x22, 0x42,
    0x0a, 0x09, 0x50, 0x72, 0x65, 0x64, 0x69, 0x63, 0x61, 0x74, 0x65, 0x12, 0x35, 0x0a, 0x04, 0x72,
    0x6f, 0x6f, 0x74, 0x18, 0x01, 0x20, 0x01, 0x28, 0x0b, 0x32, 0x21, 0x2e, 0x69, 0x6e, 0x66, 0x6c,
    0x75, 0x78, 0x64, 0x61, 0x74, 0x61, 0x2e, 0x70, 0x6c, 0x61, 0x74, 0x66, 0x6f, 0x72, 0x6d, 0x2e,
    0x73, 0x74, 0x6f, 0x72, 0x61, 0x67, 0x65, 0x2e, 0x4e, 0x6f, 0x64, 0x65, 0x52, 0x04, 0x72, 0x6f,
    0x6f, 0x74, 0x42, 0x0d, 0x5a, 0x0b, 0x2e, 0x3b, 0x64, 0x61, 0x74, 0x61, 0x74, 0x79, 0x70, 0x65,
    0x73, 0x62, 0x06, 0x70, 0x72, 0x6f, 0x74, 0x6f, 0x33 ]

/-- The bytes of a Go string literal made of ASCII characters. -/
def goString (s : String) : GoString := s.toList.map Char.toNat

/-- One field of a message as the descriptor reader takes it off the wire: a
varint, a length-delimited value, or a value of another wire type, which it
skips. -/
inductive RawField where
  | varint (num v : Nat)
  | bytes (num : Nat) (v : List Nat)
  | other (num typ : Nat)
  deriving DecidableEq, Repr

/-- The loop of the descriptor reader: `ConsumeTag`, then `ConsumeVarint`,
`ConsumeBytes` or `ConsumeFieldValue` by wire type, until the input is used
up. -/
def consumeRawFields : Nat → List Nat → Option (List RawField)
  | _, [] => some []
  | 0, _ :: _ => none
  | fuel + 1, b :: bs =>
    match consumeTag (b :: bs) with
    | none => none
    | some (num, typ, r) =>
      if typ = 0 then
        match consumeVarint r with
        | none => none
        | some (v, r1) => (consumeRawFields fuel r1).map (RawField.varint num v :: ·)
      else if typ = 2 then
        match consumeBytes r with
        | none => none
        | some (v, r1) => (consumeRawFields fuel r1).map (RawField.bytes num v :: ·)
      else
        match consumeFieldValue num typ r with
        | none => none
        | some r1 => (consumeRawFields fuel r1).map (RawField.other num typ :: ·)

/-- The fields of a message body. -/
def rawFields (b : List Nat) : Option (List RawField) := consumeRawFields b.length b

/-- The length-delimited values of field `num`, in wire order. -/
def bytesOf (num : Nat) : List RawField → List (List Nat)
  | [] => []
  | .bytes k v :: fs => if k = num then v :: bytesOf num fs else bytesOf num fs
  | _ :: fs => bytesOf num fs

/-- The value of the singular length-delimited field `num`: the last one on the
wire, empty when there is none. -/
def lastBytesOf (num : Nat) (fs : List RawField) : List Nat :=
  ((bytesOf num fs).getLast?).getD []

/-- The varint values of field `num`, in wire order. -/
def varintsOf (num : Nat) : List RawField → List Nat
  | [] => []
  | .varint k v :: fs => if k = num then v :: varintsOf num fs else varintsOf num fs
  | _ :: fs => varintsOf num fs

/-- Applies `f` to every element; `none` as soon as one fails. -/
def allSome {α β : Type} (f : α → Option β) : List α → Option (List β)
  | [] => some []
  | a :: as =>
    match f a, allSome f as with
    | some b, some bs => some (b :: bs)
    | _, _ => none

/-- An enum value of the descriptor: `EnumValueDescriptorProto`. -/
structure EnumValueDescriptor where
  Name : GoString
  Number : Int
  deriving DecidableEq, Repr

/-- An enum of the descriptor: `EnumDescriptorProto`. -/
structure EnumDescriptor where
  Name : GoString
  Values : List EnumValueDescriptor
  deriving DecidableEq, Repr

/-- A message of the descriptor, `DescriptorProto`: its name, the enums and the
messages declared inside it. -/
inductive MessageDescriptor where
  | mk (Name : GoString) (Enums : List EnumDescriptor) (Messages : List MessageDescriptor)
  deriving Repr

/-- Field `Name`. -/
def MessageDescriptor.Name : MessageDescriptor → GoString
  | .mk n _ _ => n

/-- Field `Enums`. -/
def MessageDescriptor.Enums : MessageDescriptor → List EnumDescriptor
  | .mk _ es _ => es

/-- Field `Messages`. -/
def MessageDescriptor.Messages : MessageDescriptor → List MessageDescriptor
  | .mk _ _ ms => ms

/-- The file of the descriptor: `FileDescriptorProto`. -/
structure FileDescriptor where
  Name : GoString
  Package : GoString
  Enums : List EnumDescriptor
  Messages : List MessageDescriptor
  deriving Repr

/-- Reads an `EnumValueDescriptorProto`: name is field 1, number is field 2, an
`int32`. -/
def unmarshalEnumValue (b : List Nat) : Option EnumValueDescriptor :=
  match rawFields b with
  | none => none
  | some fs => some ⟨lastBytesOf 1 fs, int32OfUint64 (((varintsOf 2 fs).getLast?).getD 0)⟩

/-- Reads an `EnumDescriptorProto`: name is field 1, every field 2 is a value. -/
def unmarshalEnum (b : List Nat) : Option EnumDescriptor :=
  match rawFields b with
  | none => none
  | some fs =>
    match allSome unmarshalEnumValue (bytesOf 2 fs) with
    | none => none
    | some vs => some ⟨lastBytesOf 1 fs, vs⟩

/-- Reads a `DescriptorProto`: name is field 1, every field 4 an enum, every
field 3 a nested message.  `fuel` bounds the nesting. -/
def unmarshalMessage : Nat → List Nat → Option MessageDescriptor
  | 0, _ => none
  | fuel + 1, b =>
    match rawFields b with
    | none => none
    | some fs =>
      match allSome unmarshalEnum (bytesOf 4 fs),
          allSome (unmarshalMessage fuel) (bytesOf 3 fs) with
      | some es, some ms => some (.mk (lastBytesOf 1 fs) es ms)
      | _, _ => none

/-- Reads a `FileDescriptorProto`: name is field 1, package field 2, every
field 5 a top-level enum, every field 4 a top-level message. -/
def unmarshalFile (b : List Nat) : Option FileDescriptor :=
  match rawFields b with
  | none => none
  | some fs =>
    match allSome unmarshalEnum (bytesOf 5 fs),
        allSome (unmarshalMessage b.length) (bytesOf 4 fs) with
    | some es, some ms => some ⟨lastBytesOf 1 fs, lastBytesOf 2 fs, es, ms⟩
    | _, _ => none

mutual
/-- The enums declared in a message and in the messages nested in it, in the
order the runtime numbers them. -/
def MessageDescriptor.allEnums : MessageDescriptor → List EnumDescriptor
  | .mk _ es ms => es ++ MessageDescriptor.allEnumsOfList ms
/-- The enums declared in the messages of a list. -/
def MessageDescriptor.allEnumsOfList : List MessageDescriptor → List EnumDescriptor
  | [] => []
  | m :: ms => m.allEnums ++ MessageDescriptor.allEnumsOfList ms
end

/-- The enums of a file in flattened order: the top-level ones, then those of
every message. -/
def FileDescriptor.allEnums (fd : FileDescriptor) : List EnumDescriptor :=
  fd.Enums ++ MessageDescriptor.allEnumsOfList fd.Messages

/-- Go `file_predicate_proto_enumTypes`, as `TypeBuilder.Build` fills it from
`RawDescriptor`: the enums of the file in flattened order (`NumEnums: 3`). -/
def file_predicate_proto_enumTypes : List EnumDescriptor :=
  match unmarshalFile file_predicate_proto_rawDesc with
  | none => []
  | some fd => fd.allEnums

/-- `EnumValues.ByNumber`: the first value declared with number `n`. -/
def EnumDescriptor.ByNumber (ed : EnumDescriptor) (n : Int) : Option EnumValueDescriptor :=
  ed.Values.find? (fun v => decide (v.Number = n))

/-- `strconv.Itoa`: the decimal digits of `n`, with a minus sign when negative. -/
def itoa (n : Int) : GoString := goString (toString n)

/-- `protoimpl.X.EnumStringOf`: the name the descriptor declares for number `n`,
or the number in decimal when it declares none. -/
def EnumStringOf (ed : Option EnumDescriptor) (n : Int) : GoString :=
  match ed with
  | none => itoa n
  | some d =>
    match d.ByNumber n with
    | some ev => ev.Name
    | none => itoa n

/-- Go `func (x Node_Type) String() string`, with the descriptor
`file_predicate_proto_enumTypes[0]`. -/
def Node_Type.String (x : Node_Type) : GoString :=
  EnumStringOf (file_predicate_proto_enumTypes.get? 0) (Node_Type.Number x)

/-- Go `func (x Node_Comparison) String() string`, with the descriptor
`file_predicate_proto_enumTypes[1]`. -/
def Node_Comparison.String (x : Node_Comparison) : GoString :=
  EnumStringOf (file_predicate_proto_enumTypes.get? 1) (Node_Comparison.Number x)

/-- Go `func (x Node_Logical) String() string`, with the descriptor
`file_predicate_proto_enumTypes[2]`. -/
def Node_Logical.String (x : Node_Logical) : GoString :=
  EnumStringOf (file_predicate_proto_enumTypes.get? 2) (Node_Logical.Number x)

/-- The `(number, name)` pairs an enum of the descriptor declares, in order. -/
def EnumDescriptor.pairs (ed : EnumDescriptor) : List (Int × GoString) :=
  ed.Values.map fun v => (v.Number, v.Name)

/-- The entries of a name map with the names as bytes. -/
def nameMapBytes (m : List (Int × String)) : List (Int × GoString) :=
  m.map fun e => (e.1, goString e.2)

/-! ## Methods and their effect on the receiver

A method with a pointer receiver works on the struct in memory: the three
unexported fields the runtime keeps its bookkeeping in, and the exported ones.
Each body is written as the function from the receiver before the call to the
result and the receiver after it. -/

/-- What the method bodies use of `protoimpl`: the build constant
`UnsafeEnabled`, `X.CompressGZIP`, and `X.MessageStringOf`, the text formatter,
which is handed the message and reads it (one function per message type). -/
structure Runtime where
  UnsafeEnabled : Bool
  CompressGZIP : List Nat → List Nat
  NodeStringOf : Node → GoString
  PredicateStringOf : Predicate → GoString

/-- Go `type Node struct` with all its fields.  `state` is the
`protoimpl.MessageState`: the index in `file_predicate_proto_msgTypes` of the
message info stored in it, `none` while nothing is stored. -/
structure NodeObject where
  state : Option Nat
  sizeCache : Int
  unknownFields : List Nat
  exported : Node
  deriving Repr

/-- Go `type Predicate struct` with all its fields. -/
structure PredicateObject where
  state : Option Nat
  sizeCache : Int
  unknownFields : List Nat
  exported : Predicate
  deriving Repr

/-- The package variables `file_predicate_proto_rawDescOnce` (whether it has
run) and `file_predicate_proto_rawDescData`. -/
structure PackageVars where
  rawDescOnceDone : Bool
  file_predicate_proto_rawDescData : List Nat
  deriving Repr

/-- The package variables as declared: the `Once` unused, the data equal to
`file_predicate_proto_rawDesc`. -/
def PackageVars.initial : PackageVars := ⟨false, file_predicate_proto_rawDesc⟩

/-- Go `func file_predicate_proto_rawDescGZIP() []byte`: compresses the data
the first time, then returns it. -/
def file_predicate_proto_rawDescGZIP (rt : Runtime) (pkg : PackageVars) :
    List Nat × PackageVars :=
  if pkg.rawDescOnceDone then (pkg.file_predicate_proto_rawDescData, pkg)
  else
    (rt.CompressGZIP pkg.file_predicate_proto_rawDescData,
      ⟨true, rt.CompressGZIP pkg.file_predicate_proto_rawDescData⟩)

/-- Go `func (x *Node) Reset()`: `*x = Node{}`, then, when `UnsafeEnabled`,
`ms.StoreMessageInfo(mi)` with `mi := &file_predicate_proto_msgTypes[0]`. -/
def Node.Reset (rt : Runtime) (_x : NodeObject) : NodeObject :=
  if rt.UnsafeEnabled then ⟨some 0, 0, [], Node.zero⟩ else ⟨none, 0, [], Node.zero⟩

/-- Go `func (x *Node) ProtoReflect() protoreflect.Message`, on a non-nil
receiver: when `UnsafeEnabled`, the message info is stored in `state` if none is
there yet and the message state is returned; otherwise `mi.MessageOf(x)` wraps
the receiver.  The result is given as the index of its message info. -/
def Node.ProtoReflect (rt : Runtime) (x : NodeObject) : Nat × NodeObject :=
  if rt.UnsafeEnabled then
    match x.state with
    | none => (0, { x with state := some 0 })
    | some mi => (mi, x)
  else (0, x)

/-- Go `func (x *Node) String() string`: `protoimpl.X.MessageStringOf(x)`.  The
formatter obtains the message through `ProtoReflect` and reads its fields. -/
def Node.String (rt : Runtime) (x : NodeObject) : GoString × NodeObject :=
  let x1 := (Node.ProtoReflect rt x).2
  (rt.NodeStringOf x1.exported, x1)

/-- Go `func (*Node) ProtoMessage() {}`: the empty body. -/
def Node.ProtoMessage (x : NodeObject) : NodeObject := x

/-- Go `func (*Node) Descriptor() ([]byte, []int)`:
`return file_predicate_proto_rawDescGZIP(), []int{0}`. -/
def Node.Descriptor (rt : Runtime) (pkg : PackageVars) (x : NodeObject) :
    (List Nat × List Nat) × PackageVars × NodeObject :=
  let r := file_predicate_proto_rawDescGZIP rt pkg
  ((r.1, [0]), r.2, x)

/-- A call of a getter on a non-nil receiver: the body consists of `if` and
`return`, so the call is the getter's function applied to the exported fields,
and the receiver stays as it is. -/
def NodeObject.get {α : Type} (f : Option Node → α) (x : NodeObject) : α × NodeObject :=
  (f (some x.exported), x)

/-- Go `func (x *Predicate) Reset()`: `*x = Predicate{}`, then, when
`UnsafeEnabled`, `ms.StoreMessageInfo(mi)` with
`mi := &file_predicate_proto_msgTypes[1]`. -/
def Predicate.Reset (rt : Runtime) (_x : PredicateObject) : PredicateObject :=
  if rt.UnsafeEnabled then ⟨some 1, 0, [], Predicate.zero⟩
  else ⟨none, 0, [], Predicate.zero⟩

/-- Go `func (x *Predicate) ProtoReflect() protoreflect.Message`, on a non-nil
receiver. -/
def Predicate.ProtoReflect (rt : Runtime) (x : PredicateObject) : Nat × PredicateObject :=
  if rt.UnsafeEnabled then
    match x.state with
    | none => (1, { x with state := some 1 })
    | some mi => (mi, x)
  else (1, x)

/-- Go `func (x *Predicate) String() string`: `protoimpl.X.MessageStringOf(x)`. -/
def Predicate.String (rt : Runtime) (x : PredicateObject) : GoString × PredicateObject :=
  let x1 := (Predicate.ProtoReflect rt x).2
  (rt.PredicateStringOf x1.exported, x1)

/-- Go `func (*Predicate) ProtoMessage() {}`: the empty body. -/
def Predicate.ProtoMessage (x : PredicateObject) : PredicateObject := x

/-- Go `func (*Predicate) Descriptor() ([]byte, []int)`:
`return file_predicate_proto_rawDescGZIP(), []int{1}`. -/
def Predicate.Descriptor (rt : Runtime) (pkg : PackageVars) (x : PredicateObject) :
    (List Nat × List Nat) × PackageVars × PredicateObject :=
  let r := file_predicate_proto_rawDescGZIP rt pkg
  ((r.1, [1]), r.2, x)

/-- A call of `GetRoot` on a non-nil receiver. -/
def PredicateObject.get {α : Type} (f : Option Predicate → α) (x : PredicateObject) :
    α × PredicateObject :=
  (f (some x.exported), x)

/-- The exported methods declared with receiver `*Node`. -/
inductive NodeMethod where
  | Reset
  | String
  | ProtoMessage
  | ProtoReflect
  | Descriptor
  | GetNodeType
  | GetChildren
  | GetValue
  | GetStringValue
  | GetBooleanValue
  | GetIntegerValue
  | GetUnsignedValue
  | GetFloatValue
  | GetRegexValue
  | GetTagRefValue
  | GetFieldRefValue
  | GetLogical
  | GetComparison
  deriving DecidableEq, Repr

/-- The receiver after a call of the method, from the method's body. -/
def NodeMethod.receiverAfter (rt : Runtime) (pkg : PackageVars) :
    NodeMethod → NodeObject → NodeObject
  | .Reset, x => Node.Reset rt x
  | .String, x => (Node.String rt x).2
  | .ProtoMessage, x => Node.ProtoMessage x
  | .ProtoReflect, x => (Node.ProtoReflect rt x).2
  | .Descriptor, x => (Node.Descriptor rt pkg x).2.2
  | .GetNodeType, x => (x.get Node.GetNodeType).2
  | .GetChildren, x => (x.get Node.GetChildren).2
  | .GetValue, x => (x.get Node.GetValue).2
  | .GetStringValue, x => (x.get Node.GetStringValue).2
  | .GetBooleanValue, x => (x.get Node.GetBooleanValue).2
  | .GetIntegerValue, x => (x.get Node.GetIntegerValue).2
  | .GetUnsignedValue, x => (x.get Node.GetUnsignedValue).2
  | .GetFloatValue, x => (x.get Node.GetFloatValue).2
  | .GetRegexValue, x => (x.get Node.GetRegexValue).2
  | .GetTagRefValue, x => (x.get Node.GetTagRefValue).2
  | .GetFieldRefValue, x => (x.get Node.GetFieldRefValue).2
  | .GetLogical, x => (x.get Node.GetLogical).2
  | .GetComparison, x => (x.get Node.GetComparison).2

/-- The exported methods declared with receiver `*Predicate`. -/
inductive PredicateMethod where
  | Reset
  | String
  | ProtoMessage
  | ProtoReflect
  | Descriptor
  | GetRoot
  deriving DecidableEq, Repr

/-- The receiver after a call of the method, from the method's body. -/
def PredicateMethod.receiverAfter (rt : Runtime) (pkg : PackageVars) :
    PredicateMethod → PredicateObject → PredicateObject
  | .Reset, x => Predicate.Reset rt x
  | .String, x => (Predicate.String rt x).2
  | .ProtoMessage, x => Predicate.ProtoMessage x
  | .ProtoReflect, x => (Predicate.ProtoReflect rt x).2
  | .Descriptor, x => (Predicate.Descriptor rt pkg x).2.2
  | .GetRoot, x => (x.get Predicate.GetRoot).2

/-- A runtime built with `UnsafeEnabled`, whose compressor and formatter return
their input and the empty string. -/
def exampleRuntime : Runtime := ⟨true, fun b => b, fun _ => [], fun _ => []⟩

/-- A comparison node with two children, freshly allocated: nothing stored in
its `state` yet. -/
def exampleNodeObject : NodeObject :=
  ⟨none, 0, [],
    .mk Node_TypeComparisonExpression [Node.zero, Node.zero]
      (some (.Node_Comparison_ Node_ComparisonLess))⟩

/-! ## Wire primitives: reading back what was written -/

theorem consumeVarintN_appendVarintN (k : Nat) :
    ∀ (v : Nat) (rest : List Nat), v < 2 * 128 ^ k →
      consumeVarintN (k + 1) (appendVarintN (k + 1) v ++ rest) = some (v, rest) := by
  induction k with
  | zero =>
    intro v rest h
    have h2 : v < 2 := by simpa using h
    have h128 : v < 128 := by omega
    simp [appendVarintN, consumeVarintN, h128]
    omega
  | succ k ih =>
    intro v rest h
    by_cases h128 : v < 128
    · simp [appendVarintN, consumeVarintN, h128]
    · have hlt : v / 128 < 2 * 128 ^ k := by
        rw [Nat.div_lt_iff_lt_mul (by norm_num)]
        calc v < 2 * 128 ^ (k + 1) := h
          _ = 2 * 128 ^ k * 128 := by ring
      have hb : ¬ (v % 128 + 128 < 128) := by omega
      rw [appendVarintN]
      simp only [h128, if_false, List.cons_append]
      rw [consumeVarintN]
      simp only [hb, if_false]
      rw [ih _ _ hlt]
      simp only [Option.some.injEq, Prod.mk.injEq, and_true]
      omega

theorem consumeVarint_appendVarint (v : Nat) (rest : List Nat) (h : v < 18446744073709551616) :
    consumeVarint (appendVarint v ++ rest) = some (v, rest) := by
  unfold consumeVarint appendVarint
  exact consumeVarintN_appendVarintN 9 v rest (by norm_num; omega)

theorem consumeBytes_appendBytes (v rest : List Nat) (h : v.length < 18446744073709551616) :
    consumeBytes (appendBytes v ++ rest) = some (v, rest) := by
  unfold consumeBytes appendBytes
  rw [List.append_assoc, consumeVarint_appendVarint _ _ h]
  simp

theorem consumeFixed64_appendFixed64 (v : Nat) (rest : List Nat) (h : v < 18446744073709551616) :
    consumeFixed64 (appendFixed64 v ++ rest) = some (v, rest) := by
  unfold appendFixed64
  simp only [List.cons_append, List.nil_append, consumeFixed64, Option.some.injEq, Prod.mk.injEq,
    and_true]
  omega

theorem uint64OfInt_lt (x : Int) : uint64OfInt x < 18446744073709551616 := by
  unfold uint64OfInt
  omega

theorem int32OfUint64_uint64OfInt (x : Int) (h : isInt32 x) :
    int32OfUint64 (uint64OfInt x) = x := by
  unfold isInt32 at h
  unfold int32OfUint64 uint64OfInt
  split <;> omega

theorem int64OfUint64_uint64OfInt (x : Int) (h : isInt64 x) :
    int64OfUint64 (uint64OfInt x) = x := by
  unfold isInt64 at h
  unfold int64OfUint64 uint64OfInt
  split <;> omega

theorem consumeVarint_single (b : Nat) (xs : List Nat) (h : b < 128) :
    consumeVarint (b :: xs) = some (b, xs) := by
  show consumeVarintN (9 + 1) (b :: xs) = some (b, xs)
  rw [consumeVarintN]
  simp [h]

theorem consumeKey_single (b : Nat) (xs : List Nat) (h : b < 128) (h8 : 8 ≤ b)
    (h4 : b % 8 ≠ 4) : consumeKey (b :: xs) = some (b / 8, b % 8, xs) := by
  unfold consumeKey
  rw [consumeVarint_single b xs h]
  have h1 : ¬ (b / 8 < 1 ∨ 536870911 < b / 8) := by omega
  simp only [h1, h4, if_false]

theorem length_appendVarintN_pos (k v : Nat) : 0 < (appendVarintN (k + 1) v).length := by
  rw [appendVarintN]
  split <;> simp

theorem length_appendVarint_pos (v : Nat) : 0 < (appendVarint v).length :=
  length_appendVarintN_pos 9 v

theorem length_value_marshal_pos (w : isNode_Value) : 0 < w.marshal.length := by
  have h : ∀ (k : Nat) (wk : WireKind), 0 < (appendTag k wk).length :=
    fun k wk => length_appendVarint_pos _
  cases w <;> simp only [isNode_Value.marshal, List.length_append] <;>
    exact Nat.add_pos_left (h _ _) _

/-! ## The unmarshal loop on marshalled fields -/

theorem unmarshalInto_nil (depth fuel : Nat) (n : Node) :
    Node.unmarshalInto depth fuel [] n = some n := by
  cases fuel <;> rfl

theorem unmarshalInto_step (depth fuel : Nat) (b : Nat) (xs : List Nat) (n : Node)
    (h : b < 128) (h8 : 8 ≤ b) (h4 : b % 8 ≠ 4) :
    Node.unmarshalInto depth (fuel + 1) (b :: xs) n =
      match Node.unmarshalField
          (fun v => enterMessage depth fun d => Node.unmarshalInto d fuel v Node.zero)
          (b / 8) (b % 8) xs n with
      | .error => none
      | .ok n1 r1 => Node.unmarshalInto depth fuel r1 n1
      | .unknown =>
        match consumeFieldValue (b / 8) (b % 8) xs with
        | none => none
        | some r1 => Node.unmarshalInto depth fuel r1 n := by
  rw [Node.unmarshalInto, consumeKey_single b xs h h8 h4]

theorem zero_merge (t : Node) : Node.zero.merge t = t := by
  cases t with
  | mk ty cs v =>
    cases v <;> simp [Node.merge, Node.zero, Node.NodeType, Node.Children, Node.Value] <;>
      intro h0 <;> exact h0.symm

/-- One oneof field on the wire is read into the interface slot. -/
theorem unmarshalInto_value (w : isNode_Value) (hr : w.inRange = true)
    (hs : w.stringsValid = true) (hl : w.marshal.length < 18446744073709551616)
    (depth fuel : Nat) (rest : List Nat) (n : Node) :
    Node.unmarshalInto depth (fuel + 1) (w.marshal ++ rest) n
      = Node.unmarshalInto depth fuel rest (n.setValue w) := by
  cases w with
  | Node_StringValue v =>
    have hv : v.length < 18446744073709551616 := by
      simp only [isNode_Value.marshal, appendBytes, List.length_append] at hl; omega
    have ht : appendTag 3 .bytes = [26] := by rfl
    simp only [isNode_Value.marshal, ht, List.cons_append, List.nil_append]
    rw [unmarshalInto_step _ _ _ _ _ (by norm_num) (by norm_num) (by norm_num)]
    simp only [isNode_Value.stringsValid] at hs
    simp [Node.unmarshalField, consumeBytes_appendBytes _ _ hv, hs]
  | Node_BooleanValue v =>
    have ht : appendTag 4 .varint = [32] := by rfl
    simp only [isNode_Value.marshal, ht, List.cons_append, List.nil_append]
    rw [unmarshalInto_step _ _ _ _ _ (by norm_num) (by norm_num) (by norm_num)]
    cases v <;>
      simp [Node.unmarshalField, consumeVarint_appendVarint]
  | Node_IntegerValue v =>
    have ht : appendTag 5 .varint = [40] := by rfl
    simp only [isNode_Value.marshal, ht, List.cons_append, List.nil_append]
    rw [unmarshalInto_step _ _ _ _ _ (by norm_num) (by norm_num) (by norm_num)]
    simp only [isNode_Value.inRange, decide_eq_true_eq] at hr
    simp [Node.unmarshalField, consumeVarint_appendVarint _ _ (uint64OfInt_lt v),
      int64OfUint64_uint64OfInt v hr]
  | Node_UnsignedValue v =>
    have ht : appendTag 6 .varint = [48] := by rfl
    simp only [isNode_Value.marshal, ht, List.cons_append, List.nil_append]
    rw [unmarshalInto_step _ _ _ _ _ (by norm_num) (by norm_num) (by norm_num)]
    simp only [isNode_Value.inRange, decide_eq_true_eq, isUint64] at hr
    simp [Node.unmarshalField, consumeVarint_appendVarint _ _ hr]
  | Node_FloatValue v =>
    have ht : appendTag 7 .fixed64 = [57] := by rfl
    simp only [isNode_Value.marshal, ht, List.cons_append, List.nil_append]
    rw [unmarshalInto_step _ _ _ _ _ (by norm_num) (by norm_num) (by norm_num)]
    simp only [isNode_Value.inRange, decide_eq_true_eq, isUint64] at hr
    simp [Node.unmarshalField, consumeFixed64_appendFixed64 _ _ hr]
  | Node_RegexValue v =>
    have hv : v.length < 18446744073709551616 := by
      simp only [isNode_Value.marshal, appendBytes, List.length_append] at hl; omega
    have ht : appendTag 8 .bytes = [66] := by rfl
    simp only [isNode_Value.marshal, ht, List.cons_append, List.nil_append]
    rw [unmarshalInto_step _ _ _ _ _ (by norm_num) (by norm_num) (by norm_num)]
    simp only [isNode_Value.stringsValid] at hs
    simp [Node.unmarshalField, consumeBytes_appendBytes _ _ hv, hs]
  | Node_TagRefValue v =>
    have hv : v.length < 18446744073709551616 := by
      simp only [isNode_Value.marshal, appendBytes, List.length_append] at hl; omega
    have ht : appendTag 9 .bytes = [74] := by rfl
    simp only [isNode_Value.marshal, ht, List.cons_append, List.nil_append]
    rw [unmarshalInto_step _ _ _ _ _ (by norm_num) (by norm_num) (by norm_num)]
    simp only [isNode_Value.stringsValid] at hs
    simp [Node.unmarshalField, consumeBytes_appendBytes _ _ hv, hs]
  | Node_FieldRefValue v =>
    have hv : v.length < 18446744073709551616 := by
      simp only [isNode_Value.marshal, appendBytes, List.length_append] at hl; omega
    have ht : appendTag 10 .bytes = [82] := by rfl
    simp only [isNode_Value.marshal, ht, List.cons_append, List.nil_append]
    rw [unmarshalInto_step _ _ _ _ _ (by norm_num) (by norm_num) (by norm_num)]
    simp only [isNode_Value.stringsValid] at hs
    simp [Node.unmarshalField, consumeBytes_appendBytes _ _ hv, hs]
  | Node_Logical_ v =>
    have ht : appendTag 11 .varint = [88] := by rfl
    simp only [isNode_Value.marshal, ht, List.cons_append, List.nil_append]
    rw [unmarshalInto_step _ _ _ _ _ (by norm_num) (by norm_num) (by norm_num)]
    simp only [isNode_Value.inRange, decide_eq_true_eq] at hr
    simp [Node.unmarshalField, consumeVarint_appendVarint _ _ (uint64OfInt_lt v),
      int32OfUint64_uint64OfInt v hr]
  | Node_Comparison_ v =>
    have ht : appendTag 12 .varint = [96] := by rfl
    simp only [isNode_Value.marshal, ht, List.cons_append, List.nil_append]
    rw [unmarshalInto_step _ _ _ _ _ (by norm_num) (by norm_num) (by norm_num)]
    simp only [isNode_Value.inRange, decide_eq_true_eq] at hr
    simp [Node.unmarshalField, consumeVarint_appendVarint _ _ (uint64OfInt_lt v),
      int32OfUint64_uint64OfInt v hr]

/-- The field `node_type`, when written, replaces the type read so far. -/
theorem unmarshalInto_nodeType (ty : Node_Type) (hty : isInt32 ty) (depth fuel : Nat)
    (rest : List Nat) (n : Node) (hf : (marshalNodeType ty ++ rest).length ≤ fuel) :
    ∃ fuel1, rest.length ≤ fuel1 ∧
      Node.unmarshalInto depth fuel (marshalNodeType ty ++ rest) n
        = Node.unmarshalInto depth fuel1 rest
            (.mk (if ty = 0 then n.NodeType else ty) n.Children n.Value) := by
  cases n with
  | mk t0 cs0 v0 =>
    by_cases h0 : ty = 0
    · refine ⟨fuel, ?_, ?_⟩
      · simpa [marshalNodeType, h0] using hf
      · simp [marshalNodeType, h0, Node.NodeType, Node.Children, Node.Value]
    · have ht : appendTag 1 .varint = [8] := by rfl
      simp only [marshalNodeType, h0, if_false, ht, List.cons_append, List.nil_append,
        List.append_assoc, List.length_cons, List.length_append] at hf ⊢
      obtain ⟨f, rfl⟩ : ∃ f, fuel = f + 1 := ⟨fuel - 1, by omega⟩
      refine ⟨f, by omega, ?_⟩
      rw [unmarshalInto_step _ _ _ _ _ (by norm_num) (by norm_num) (by norm_num)]
      simp [Node.unmarshalField, consumeVarint_appendVarint _ _ (uint64OfInt_lt ty),
        int32OfUint64_uint64OfInt ty hty, Node.NodeType, Node.Children, Node.Value]

/-- The oneof slot on the wire, when set, replaces the member read so far. -/
theorem unmarshalInto_oneof (v : Option isNode_Value) (hr : valueInRange v = true)
    (hs : valueStringsValid v = true) (hl : (marshalValue v).length < 18446744073709551616)
    (depth fuel : Nat) (rest : List Nat) (n : Node) (hf : (marshalValue v ++ rest).length ≤ fuel) :
    ∃ fuel1, rest.length ≤ fuel1 ∧
      Node.unmarshalInto depth fuel (marshalValue v ++ rest) n
        = Node.unmarshalInto depth fuel1 rest
            (.mk n.NodeType n.Children (v.orElse fun _ => n.Value)) := by
  cases n with
  | mk t0 cs0 v0 =>
    cases v with
    | none =>
      exact ⟨fuel, by simpa [marshalValue] using hf,
        by simp [marshalValue, Node.NodeType, Node.Children, Node.Value]⟩
    | some w =>
      simp only [marshalValue, valueInRange, valueStringsValid, List.length_append] at *
      have hpos := length_value_marshal_pos w
      obtain ⟨f, rfl⟩ : ∃ f, fuel = f + 1 := ⟨fuel - 1, by omega⟩
      refine ⟨f, by omega, ?_⟩
      rw [unmarshalInto_value w hr hs hl]
      simp [Node.setValue, Node.NodeType, Node.Children, Node.Value]

mutual
/-- Reading the bytes of `t`, followed by anything, into `n` merges `t` into `n`
and goes on with what follows, when the depth left covers the children of `t`. -/
theorem unmarshalInto_node : ∀ (t : Node), t.inRange = true → t.stringsValid = true →
    t.marshal.length < 18446744073709551616 →
    ∀ (depth fuel : Nat) (rest : List Nat) (n : Node), t.depth ≤ depth + 1 →
    (t.marshal ++ rest).length ≤ fuel →
    ∃ fuel1, rest.length ≤ fuel1 ∧
      Node.unmarshalInto depth fuel (t.marshal ++ rest) n
        = Node.unmarshalInto depth fuel1 rest (n.merge t)
  | .mk ty cs v, hr, hs, hl, depth, fuel, rest, n, hd, hf => by
    simp only [Node.inRange, Bool.and_eq_true, decide_eq_true_eq] at hr
    simp only [Node.stringsValid, Bool.and_eq_true] at hs
    obtain ⟨⟨hty, hcs⟩, hv⟩ := hr
    obtain ⟨hscs, hsv⟩ := hs
    simp only [Node.depth] at hd
    simp only [Node.marshal, List.length_append] at hl
    simp only [Node.marshal, List.append_assoc] at hf ⊢
    obtain ⟨f1, hf1, hA⟩ := unmarshalInto_nodeType ty hty depth fuel _ n hf
    obtain ⟨f2, hf2, hB⟩ := unmarshalInto_children cs hcs hscs (by omega) depth f1 _
      (.mk (if ty = 0 then n.NodeType else ty) n.Children n.Value) (by omega) hf1
    obtain ⟨f3, hf3, hC⟩ := unmarshalInto_oneof v hv hsv (by omega) depth f2 rest _ hf2
    refine ⟨f3, hf3, ?_⟩
    rw [hA, hB, hC]
    cases n
    simp [Node.merge, Node.NodeType, Node.Children, Node.Value]
/-- Reading the repeated field `children` appends every child, in order, when
the depth left covers every child. -/
theorem unmarshalInto_children : ∀ (cs : List Node), Node.inRangeAll cs = true →
    Node.stringsValidAll cs = true →
    (Node.marshalChildren cs).length < 18446744073709551616 →
    ∀ (depth fuel : Nat) (rest : List Nat) (n : Node), Node.depthAll cs ≤ depth →
    (Node.marshalChildren cs ++ rest).length ≤ fuel →
    ∃ fuel1, rest.length ≤ fuel1 ∧
      Node.unmarshalInto depth fuel (Node.marshalChildren cs ++ rest) n
        = Node.unmarshalInto depth fuel1 rest (.mk n.NodeType (n.Children ++ cs) n.Value)
  | [], _, _, _, depth, fuel, rest, n, _, hf => by
    refine ⟨fuel, by simpa [Node.marshalChildren] using hf, ?_⟩
    cases n
    simp [Node.marshalChildren, Node.NodeType, Node.Children, Node.Value]
  | c :: cs, hr, hs, hl, depth, fuel, rest, n, hd, hf => by
    simp only [Node.inRangeAll, Bool.and_eq_true] at hr
    simp only [Node.stringsValidAll, Bool.and_eq_true] at hs
    simp only [Node.depthAll, max_le_iff] at hd
    have ht : appendTag 2 .bytes = [18] := by rfl
    simp only [Node.marshalChildren, ht, List.cons_append, List.nil_append, List.append_assoc,
      List.length_cons, List.length_append, appendBytes] at hl hf ⊢
    have hv := length_appendVarint_pos c.marshal.length
    obtain ⟨f, rfl⟩ : ∃ f, fuel = f + 1 := ⟨fuel - 1, by omega⟩
    have hc : c.marshal.length < 18446744073709551616 := by omega
    have hcd : 1 ≤ c.depth := by cases c; simp [Node.depth]
    obtain ⟨d, rfl⟩ : ∃ d, depth = d + 1 := ⟨depth - 1, by omega⟩
    obtain ⟨fc, _, hC⟩ := unmarshalInto_node c hr.1 hs.1 hc d f [] Node.zero hd.1
      (by simp only [List.append_nil]; omega)
    rw [List.append_nil, unmarshalInto_nil, zero_merge c] at hC
    obtain ⟨f2, hf2, hB⟩ := unmarshalInto_children cs hr.2 hs.2 (by omega) (d + 1) f rest
      (.mk n.NodeType (n.Children ++ [c]) n.Value) hd.2
      (by simp only [List.length_append]; omega)
    refine ⟨f2, hf2, ?_⟩
    rw [unmarshalInto_step _ _ _ _ _ (by norm_num) (by norm_num) (by norm_num)]
    have hcb := consumeBytes_appendBytes c.marshal (Node.marshalChildren cs ++ rest) hc
    simp only [appendBytes, List.append_assoc] at hcb
    cases n
    simp only [Node.NodeType, Node.Children, Node.Value, List.append_assoc,
      List.singleton_append] at hB
    simp [Node.unmarshalField, enterMessage, hcb, hC, hB, Node.NodeType, Node.Children,
      Node.Value]
end

/-- With depth for its nesting and fuel for its length, the encoding of a
well-formed node is read back as that node. -/
theorem unmarshalInto_marshal (t : Node) (h : t.WellFormed) (depth fuel : Nat)
    (hd : t.depth ≤ depth + 1) (hf : t.marshal.length ≤ fuel) :
    Node.unmarshalInto depth fuel t.marshal Node.zero = some t := by
  obtain ⟨hr, hs, hl⟩ := h
  obtain ⟨f, _, hN⟩ := unmarshalInto_node t hr hs hl depth fuel [] Node.zero hd
    (by simpa using hf)
  rw [List.append_nil, unmarshalInto_nil, zero_merge] at hN
  exact hN

/-- Oneof members on the wire change the interface slot only. -/
theorem unmarshalInto_values : ∀ (ws : List isNode_Value), (∀ w ∈ ws, w.WellFormed) →
    ∀ (depth fuel : Nat) (rest : List Nat) (n : Node),
    (marshalValues ws ++ rest).length ≤ fuel →
    ∃ fuel1 v1, rest.length ≤ fuel1 ∧
      Node.unmarshalInto depth fuel (marshalValues ws ++ rest) n
        = Node.unmarshalInto depth fuel1 rest (.mk n.NodeType n.Children v1)
  | [], _, depth, fuel, rest, n, hf => by
    refine ⟨fuel, n.Value, by simpa [marshalValues] using hf, ?_⟩
    cases n
    simp [marshalValues, Node.NodeType, Node.Children, Node.Value]
  | w :: ws, hws, depth, fuel, rest, n, hf => by
    obtain ⟨hr, hs, hl⟩ := hws w (List.mem_cons_self _ _)
    simp only [marshalValues, List.append_assoc] at hf ⊢
    obtain ⟨f1, hf1, hA⟩ := unmarshalInto_oneof (some w) hr hs hl depth fuel _ n hf
    obtain ⟨f2, v2, hf2, hB⟩ := unmarshalInto_values ws
      (fun x hx => hws x (List.mem_cons_of_mem _ hx)) depth f1 rest
      (.mk n.NodeType n.Children ((some w).orElse fun _ => n.Value)) hf1
    refine ⟨f2, v2, hf2, ?_⟩
    simp only [marshalValue] at hA
    rw [hA, hB]
    simp [Node.NodeType, Node.Children]

/-! ## Nesting depth -/

theorem enterMessage_limit {α : Type} (body : Nat → Option α) :
    enterMessage DefaultRecursionLimit body = body 9999 := rfl

theorem length_appendVarintN_le (k : Nat) : ∀ v : Nat, (appendVarintN k v).length ≤ k := by
  induction k with
  | zero => intro v; simp [appendVarintN]
  | succ k ih =>
    intro v
    rw [appendVarintN]
    split
    · simp
    · simpa using ih (v / 128)

theorem marshal_parenChain_succ (d : Nat) (t : Node) :
    (parenChain (d + 1) t).marshal
      = 8 :: 2 :: 18 :: (appendVarint (parenChain d t).marshal.length
          ++ (parenChain d t).marshal) := by
  have h1 : marshalNodeType Node_TypeParenExpression = [8, 2] := by rfl
  have h2 : appendTag 2 .bytes = [18] := by rfl
  simp [parenChain, Node.marshal, Node.marshalChildren, marshalValue, h1, h2, appendBytes]

theorem length_marshal_parenChain (t : Node) :
    ∀ d : Nat, (parenChain d t).marshal.length ≤ 13 * d + t.marshal.length := by
  intro d
  induction d with
  | zero => simp [parenChain]
  | succ d ih =>
    rw [marshal_parenChain_succ]
    have hv : (appendVarint (parenChain d t).marshal.length).length ≤ 10 :=
      length_appendVarintN_le 10 _
    simp only [List.length_cons, List.length_append]
    omega

theorem depth_parenChain (t : Node) : ∀ d : Nat, (parenChain d t).depth = d + t.depth := by
  intro d
  induction d with
  | zero => simp [parenChain]
  | succ d ih => simp [parenChain, Node.depth, Node.depthAll, ih]; omega

theorem stringsValid_parenChain (t : Node) :
    ∀ d : Nat, (parenChain d t).stringsValid = t.stringsValid := by
  intro d
  induction d with
  | zero => simp [parenChain]
  | succ d ih =>
    simp [parenChain, Node.stringsValid, Node.stringsValidAll, valueStringsValid, ih]

theorem inRange_parenChain (t : Node) :
    ∀ d : Nat, (parenChain d t).inRange = t.inRange := by
  intro d
  induction d with
  | zero => simp [parenChain]
  | succ d ih =>
    have h : isInt32 Node_TypeParenExpression := by decide
    simp [parenChain, Node.inRange, Node.inRangeAll, valueInRange, ih, h]

theorem arityOk_parenChain (t : Node) :
    ∀ d : Nat, (parenChain d t).arityOk = t.arityOk := by
  intro d
  induction d with
  | zero => simp [parenChain]
  | succ d ih =>
    have h : arityRule Node_TypeParenExpression 1 = true := by decide
    simp [parenChain, Node.arityOk, Node.arityOkAll, ih, h]

/-- A chain of more parenthesised expressions than the depth left is refused,
whatever it encloses and whatever the fuel. -/
theorem unmarshalInto_parenChain_none (t : Node) :
    ∀ (d depth fuel : Nat) (rest : List Nat) (n : Node), depth < d →
      13 * d + t.marshal.length < 18446744073709551616 →
      Node.unmarshalInto depth fuel ((parenChain d t).marshal ++ rest) n = none := by
  intro d
  induction d with
  | zero => intro depth fuel rest n h; omega
  | succ d ih =>
    intro depth fuel rest n hd hl
    have hlen := length_marshal_parenChain t d
    have hc : (parenChain d t).marshal.length < 18446744073709551616 := by omega
    rw [marshal_parenChain_succ]
    simp only [List.cons_append]
    cases fuel with
    | zero => rfl
    | succ f =>
      rw [unmarshalInto_step _ _ _ _ _ (by norm_num) (by norm_num) (by norm_num)]
      simp only [Node.unmarshalField, consumeVarint_single 2 _ (by norm_num)]
      simp only [Nat.reduceDiv, Nat.reduceMod, and_self, if_true]
      cases f with
      | zero => rfl
      | succ f1 =>
        rw [unmarshalInto_step _ _ _ _ _ (by norm_num) (by norm_num) (by norm_num)]
        have hcb := consumeBytes_appendBytes (parenChain d t).marshal rest hc
        simp only [appendBytes, List.append_assoc] at hcb
        cases depth with
        | zero =>
          simp [Node.unmarshalField, hcb, enterMessage]
        | succ k =>
          have hk := ih k f1 [] Node.zero (by omega) (by omega)
          rw [List.append_nil] at hk
          simp [Node.unmarshalField, hcb, enterMessage, hk]

/-- A `Predicate` whose root is a chain of parenthesised expressions is
marshalled when what the chain encloses has valid strings. -/
theorem Marshal_parenChain (t : Node) (d : Nat) (hs : t.stringsValid = true) :
    Marshal ⟨some (parenChain d t)⟩ = some (Predicate.marshal ⟨some (parenChain d t)⟩) := by
  simp [Marshal, stringsValid_parenChain, hs]

/-- The bytes of a `Predicate` whose root is a chain of 9999 or more
parenthesised expressions are refused: the recursion limit is reached. -/
theorem Unmarshal_parenChain_none (t : Node) (d : Nat) (hd : 9998 < d)
    (hl : 13 * d + t.marshal.length < 18446744073709551616) :
    Unmarshal (Predicate.marshal ⟨some (parenChain d t)⟩) = none := by
  have hlen := length_marshal_parenChain t d
  have hc : (parenChain d t).marshal.length < 18446744073709551616 := by omega
  have ht : appendTag 1 .bytes = [10] := by rfl
  have hcb := consumeBytes_appendBytes (parenChain d t).marshal [] hc
  rw [List.append_nil] at hcb
  have hnone := unmarshalInto_parenChain_none t d 9998 (parenChain d t).marshal.length
    [] Node.zero hd hl
  rw [List.append_nil] at hnone
  have he : ∀ body : Nat → Option Node, enterMessage 9999 body = body 9998 := fun _ => rfl
  rw [Unmarshal, enterMessage_limit]
  simp only [Predicate.marshal, ht, List.cons_append, List.nil_append, List.length_cons]
  rw [Predicate.unmarshalInto, consumeKey_single _ _ (by norm_num) (by norm_num) (by norm_num)]
  simp only [Predicate.unmarshalField, hcb, Predicate.zero, Option.getD_none, he, hnone]
  simp

/-- An entry found by map indexing is an entry of the map literal. -/
theorem mem_of_mapGet {α β : Type} [BEq α] [LawfulBEq α] (m : List (α × β)) (k : α) (v : β)
    (h : mapGet m k = some v) : (k, v) ∈ m := by
  unfold mapGet at h
  induction m with
  | nil => simp at h
  | cons p m ih =>
    obtain ⟨a, b⟩ := p
    simp only [List.lookup] at h
    split at h
    · rename_i heq
      simp at heq h
      simp [heq, h]
    · exact List.mem_cons_of_mem _ (ih h)

/-! ## The claims -/

/-- C1, as stated, fails on trees that satisfy the arity rules.  A comparison
whose string literal is the byte `0xff` is not marshalled: the runtime returns
the error for a string that is not UTF-8.  The literal `true` inside 9999
parenthesised expressions, a root of depth 10000, is marshalled, and
unmarshalling its bytes ends in the error for the recursion limit. -/
theorem roundtrip_fails_on_bad_utf8_and_depth :
    (badUtf8Predicate.Root.map Node.arityOk = some true ∧
      badUtf8Predicate.Root.map Node.inRange = some true ∧
      Marshal badUtf8Predicate = none) ∧
    ((parenChain 9999 trueLiteral).arityOk = true ∧
      (parenChain 9999 trueLiteral).inRange = true ∧
      (parenChain 9999 trueLiteral).depth = 10000 ∧
      Marshal ⟨some (parenChain 9999 trueLiteral)⟩
        = some (Predicate.marshal ⟨some (parenChain 9999 trueLiteral)⟩) ∧
      Unmarshal (Predicate.marshal ⟨some (parenChain 9999 trueLiteral)⟩) = none) :=
  ⟨⟨by decide, by decide, by decide⟩,
    (arityOk_parenChain trueLiteral 9999).trans (by decide),
    (inRange_parenChain trueLiteral 9999).trans (by decide),
    (depth_parenChain trueLiteral 9999).trans (by decide),
    Marshal_parenChain trueLiteral 9999 (by decide),
    Unmarshal_parenChain_none trueLiteral 9999 (by decide) (by decide)⟩

/-- C1, amended: for every `Predicate` tree whose strings are valid UTF-8 and
whose nesting depth, the `Predicate` counted, is at most the recursion limit of
10000 (numbers in the range of their Go types, an encoding that fits a 64-bit
length), marshalling succeeds and unmarshalling the bytes yields a tree equal to
the original: same `NodeType`, same oneof member and payload, same children in
the same order, recursively. -/
theorem Unmarshal_Marshal (p : Predicate) (h : p.WellFormed)
    (hd : p.depth ≤ DefaultRecursionLimit) :
    ∃ b, Marshal p = some b ∧ Unmarshal b = some p := by
  obtain ⟨root⟩ := p
  cases root with
  | none => exact ⟨[], rfl, rfl⟩
  | some n =>
    have hn : n.WellFormed := h
    have hdn : n.depth ≤ 9998 + 1 := by
      have h1 : n.depth + 1 ≤ DefaultRecursionLimit := hd
      have h2 : DefaultRecursionLimit = 10000 := rfl
      omega
    obtain ⟨hr, hs, hl⟩ := hn
    refine ⟨Predicate.marshal ⟨some n⟩, by simp [Marshal, hs], ?_⟩
    have ht : appendTag 1 .bytes = [10] := by rfl
    have hcb := consumeBytes_appendBytes n.marshal [] hl
    rw [List.append_nil] at hcb
    have he : ∀ body : Nat → Option Node, enterMessage 9999 body = body 9998 := fun _ => rfl
    rw [Unmarshal, enterMessage_limit]
    simp only [Predicate.marshal, ht, List.cons_append, List.nil_append, List.length_cons]
    rw [Predicate.unmarshalInto, consumeKey_single _ _ (by norm_num) (by norm_num) (by norm_num)]
    simp only [Predicate.unmarshalField, hcb, Predicate.zero, Option.getD_none, he]
    rw [unmarshalInto_marshal n ⟨hr, hs, hl⟩ _ _ hdn (le_refl _)]
    simp [Predicate.unmarshalInto]

/-- Witness of C1, amended: the tree of the specification's scenario is
well-formed and nests 4 deep, its bytes are the ones listed, and it is read
back. -/
theorem Unmarshal_Marshal_witness :
    scenarioPredicate.WellFormed ∧ scenarioPredicate.depth = 4 ∧
    Marshal scenarioPredicate = some
      [ 10, 53, 18, 21, 8, 1, 18, 8, 8, 3, 74, 4, 104, 111, 115, 116, 18, 5, 8, 4, 26, 1, 97,
        96, 0, 18, 26, 8, 1, 18, 7, 8, 5, 82, 3, 99, 112, 117, 18, 11, 8, 4, 57, 205, 204, 204,
        204, 204, 204, 236, 63, 96, 8, 88, 0 ] ∧
    ∃ b, Marshal scenarioPredicate = some b ∧ Unmarshal b = some scenarioPredicate :=
  ⟨⟨by decide, by decide, by decide⟩, by decide, by decide,
    Unmarshal_Marshal scenarioPredicate ⟨by decide, by decide, by decide⟩ (by decide)⟩

/-- C2: a node holds at most one oneof member, and the ten typed getters reflect
exactly that one: with member `V` of payload `p` the getter of `V` returns `p`
and the other nine return their zero value; with a nil `Value` all ten return
their zero value.  A zero result does not show that the member is set: the
zero node answers `ComparisonEqual` without holding a comparison, as does the
node that holds `ComparisonEqual`. -/
theorem typedGetters_reflect_value (n : Node) :
    (∀ k1 k2 : WrapperType, n.holds k1 = true → n.holds k2 = true → k1 = k2) ∧
    (match n.Value with
     | none => Node.typedGetters (some n) = TypedGetters.zero
     | some (.Node_StringValue p) =>
       Node.typedGetters (some n) = { TypedGetters.zero with StringValue := p }
     | some (.Node_BooleanValue p) =>
       Node.typedGetters (some n) = { TypedGetters.zero with BooleanValue := p }
     | some (.Node_IntegerValue p) =>
       Node.typedGetters (some n) = { TypedGetters.zero with IntegerValue := p }
     | some (.Node_UnsignedValue p) =>
       Node.typedGetters (some n) = { TypedGetters.zero with UnsignedValue := p }
     | some (.Node_FloatValue p) =>
       Node.typedGetters (some n) = { TypedGetters.zero with FloatValue := p }
     | some (.Node_RegexValue p) =>
       Node.typedGetters (some n) = { TypedGetters.zero with RegexValue := p }
     | some (.Node_TagRefValue p) =>
       Node.typedGetters (some n) = { TypedGetters.zero with TagRefValue := p }
     | some (.Node_FieldRefValue p) =>
       Node.typedGetters (some n) = { TypedGetters.zero with FieldRefValue := p }
     | some (.Node_Logical_ p) =>
       Node.typedGetters (some n) = { TypedGetters.zero with Logical := p }
     | some (.Node_Comparison_ p) =>
       Node.typedGetters (some n) = { TypedGetters.zero with Comparison := p }) ∧
    (Node.GetComparison (some Node.zero) = Node_ComparisonEqual ∧
      Node.zero.holds .Node_Comparison_ = false ∧
      Node.GetComparison (some (.mk 0 [] (some (.Node_Comparison_ Node_ComparisonEqual))))
        = Node_ComparisonEqual ∧
      (Node.mk 0 [] (some (.Node_Comparison_ Node_ComparisonEqual))).holds .Node_Comparison_
        = true) := by
  refine ⟨?_, ?_, rfl, rfl, rfl, rfl⟩
  · intro k1 k2 h1 h2
    cases n with
    | mk t cs v =>
      cases v with
      | none => simp [Node.holds, Node.Value] at h1
      | some w =>
        simp only [Node.holds, Node.Value, decide_eq_true_eq] at h1 h2
        exact h1.symm.trans h2
  · cases n with
    | mk t cs v =>
      cases v with
      | none => rfl
      | some w => cases w <;> rfl

/-- C3: the wrapper types declared with a method `isNode_Value` are the ten of
the comment on `Node.Value`, and the ten registered in `OneofWrappers`, in the
same order and without repetition; every value of the interface is one of them,
each of them has a value, and their field types are those of the ten variants
the specification lists, in its order. -/
theorem oneof_variants_exact :
    isNode_ValueImplementers = assignableToValue ∧
    OneofWrappers = isNode_ValueImplementers ∧
    OneofWrappers.length = 10 ∧
    OneofWrappers.Nodup ∧
    (∀ k : WrapperType, k ∈ OneofWrappers) ∧
    (∀ w : isNode_Value, w.wrapper ∈ OneofWrappers) ∧
    (∀ k : WrapperType, ∃ w : isNode_Value, w.wrapper = k) ∧
    OneofWrappers.map WrapperType.fieldType = specVariants.map SpecVariant.goType ∧
    specVariants.length = 10 ∧ specVariants.Nodup := by
  refine ⟨rfl, rfl, rfl, by decide, ?_, ?_, ?_, rfl, rfl, by decide⟩
  · intro k; cases k <;> decide
  · intro w; cases w <;> simp [isNode_Value.wrapper, OneofWrappers]
  · intro k
    cases k
    · exact ⟨.Node_StringValue [], rfl⟩
    · exact ⟨.Node_BooleanValue false, rfl⟩
    · exact ⟨.Node_IntegerValue 0, rfl⟩
    · exact ⟨.Node_UnsignedValue 0, rfl⟩
    · exact ⟨.Node_FloatValue 0, rfl⟩
    · exact ⟨.Node_RegexValue [], rfl⟩
    · exact ⟨.Node_TagRefValue [], rfl⟩
    · exact ⟨.Node_FieldRefValue [], rfl⟩
    · exact ⟨.Node_Logical_ 0, rfl⟩
    · exact ⟨.Node_Comparison_ 0, rfl⟩

/-- C4: each enum constant has the zero-based position of its operator or kind
in the specification's list as its number: the comparison operators are 0..8,
the logical operators 0 and 1, the node kinds 0..5; the constants of one enum
have pairwise distinct numbers, and `Number` returns the number unchanged. -/
theorem enum_numbers :
    declaredComparisons = [0, 1, 2, 3, 4, 5, 6, 7, 8] ∧
    declaredLogicals = [0, 1] ∧
    declaredNodeTypes = [0, 1, 2, 3, 4, 5] ∧
    (∀ i : Fin 9, declaredComparisons.get? i.val = some (i.val : Int)) ∧
    (∀ i : Fin 2, declaredLogicals.get? i.val = some (i.val : Int)) ∧
    (∀ i : Fin 6, declaredNodeTypes.get? i.val = some (i.val : Int)) ∧
    declaredComparisons.Nodup ∧ declaredLogicals.Nodup ∧ declaredNodeTypes.Nodup ∧
    (∀ x : Node_Comparison, Node_Comparison.Number x = x) ∧
    (∀ x : Node_Logical, Node_Logical.Number x = x) ∧
    (∀ x : Node_Type, Node_Type.Number x = x) := by
  refine ⟨rfl, rfl, rfl, by decide, by decide, by decide, by decide, by decide, by decide,
    fun _ => rfl, fun _ => rfl, fun _ => rfl⟩

/-- C5: for each of the three enums the name map and the value map are inverse
to each other: a number's name maps back to the number, a name's number maps
back to the name; the keys of the name maps are exactly 0..5, 0..8 and 0..1, so
no two names share a number, no two numbers share a name, and every declared
constant has a name. -/
theorem enum_maps_inverse :
    ((∀ k s, mapGet Node_Type_name k = some s → mapGet Node_Type_value s = some k) ∧
     (∀ s k, mapGet Node_Type_value s = some k → mapGet Node_Type_name k = some s) ∧
     mapKeys Node_Type_name = [0, 1, 2, 3, 4, 5] ∧
     (Node_Type_name.map Prod.snd).Nodup ∧
     (∀ c ∈ declaredNodeTypes, (mapGet Node_Type_name c).isSome = true)) ∧
    ((∀ k s, mapGet Node_Comparison_name k = some s →
        mapGet Node_Comparison_value s = some k) ∧
     (∀ s k, mapGet Node_Comparison_value s = some k →
        mapGet Node_Comparison_name k = some s) ∧
     mapKeys Node_Comparison_name = [0, 1, 2, 3, 4, 5, 6, 7, 8] ∧
     (Node_Comparison_name.map Prod.snd).Nodup ∧
     (∀ c ∈ declaredComparisons, (mapGet Node_Comparison_name c).isSome = true)) ∧
    ((∀ k s, mapGet Node_Logical_name k = some s → mapGet Node_Logical_value s = some k) ∧
     (∀ s k, mapGet Node_Logical_value s = some k → mapGet Node_Logical_name k = some s) ∧
     mapKeys Node_Logical_name = [0, 1] ∧
     (Node_Logical_name.map Prod.snd).Nodup ∧
     (∀ c ∈ declaredLogicals, (mapGet Node_Logical_name c).isSome = true)) := by
  refine ⟨⟨?_, ?_, rfl, by decide, by decide⟩, ⟨?_, ?_, rfl, by decide, by decide⟩,
    ⟨?_, ?_, rfl, by decide, by decide⟩⟩
  · intro k s h
    have hm := mem_of_mapGet _ _ _ h
    simp only [Node_Type_name, List.mem_cons, Prod.mk.injEq, List.mem_singleton,
      List.not_mem_nil, or_false] at hm
    rcases hm with ⟨rfl, rfl⟩ | ⟨rfl, rfl⟩ | ⟨rfl, rfl⟩ | ⟨rfl, rfl⟩ | ⟨rfl, rfl⟩ | ⟨rfl, rfl⟩ <;>
      decide
  · intro s k h
    have hm := mem_of_mapGet _ _ _ h
    simp only [Node_Type_value, List.mem_cons, Prod.mk.injEq, List.mem_singleton,
      List.not_mem_nil, or_false] at hm
    rcases hm with ⟨rfl, rfl⟩ | ⟨rfl, rfl⟩ | ⟨rfl, rfl⟩ | ⟨rfl, rfl⟩ | ⟨rfl, rfl⟩ | ⟨rfl, rfl⟩ <;>
      decide
  · intro k s h
    have hm := mem_of_mapGet _ _ _ h
    simp only [Node_Comparison_name, List.mem_cons, Prod.mk.injEq, List.mem_singleton,
      List.not_mem_nil, or_false] at hm
    rcases hm with ⟨rfl, rfl⟩ | ⟨rfl, rfl⟩ | ⟨rfl, rfl⟩ | ⟨rfl, rfl⟩ | ⟨rfl, rfl⟩ | ⟨rfl, rfl⟩ |
      ⟨rfl, rfl⟩ | ⟨rfl, rfl⟩ | ⟨rfl, rfl⟩ <;> decide
  · intro s k h
    have hm := mem_of_mapGet _ _ _ h
    simp only [Node_Comparison_value, List.mem_cons, Prod.mk.injEq, List.mem_singleton,
      List.not_mem_nil, or_false] at hm
    rcases hm with ⟨rfl, rfl⟩ | ⟨rfl, rfl⟩ | ⟨rfl, rfl⟩ | ⟨rfl, rfl⟩ | ⟨rfl, rfl⟩ | ⟨rfl, rfl⟩ |
      ⟨rfl, rfl⟩ | ⟨rfl, rfl⟩ | ⟨rfl, rfl⟩ <;> decide
  · intro k s h
    have hm := mem_of_mapGet _ _ _ h
    simp only [Node_Logical_name, List.mem_cons, Prod.mk.injEq, List.mem_singleton,
      List.not_mem_nil, or_false] at hm
    rcases hm with ⟨rfl, rfl⟩ | ⟨rfl, rfl⟩ <;> decide
  · intro s k h
    have hm := mem_of_mapGet _ _ _ h
    simp only [Node_Logical_value, List.mem_cons, Prod.mk.injEq, List.mem_singleton,
      List.not_mem_nil, or_false] at hm
    rcases hm with ⟨rfl, rfl⟩ | ⟨rfl, rfl⟩ <;> decide

/-- C6: the struct tags give every field of `Node` a number of its own: the
numbers are 1..12 in source order (`node_type` 1, `children` 2, the ten oneof
members 3..12), pairwise distinct, and `Predicate.root` is 1; the wire type of
each field is varint for the enums, `bool` and the 64-bit integers, fixed64 for
the float, length-delimited bytes for the strings, `children` and `root`; the
key a oneof member is written under is the one of its tag. -/
theorem field_numbers_distinct :
    nodeFieldTags.map FieldTag.number = [1, 2, 3, 4, 5, 6, 7, 8, 9, 10, 11, 12] ∧
    (nodeFieldTags.map FieldTag.number).Nodup ∧
    nodeFieldTags.map (fun f => (f.name, f.number)) =
      [ ("node_type", 1), ("children", 2), ("StringValue", 3), ("BooleanValue", 4),
        ("IntegerValue", 5), ("UnsignedValue", 6), ("FloatValue", 7), ("RegexValue", 8),
        ("TagRefValue", 9), ("FieldRefValue", 10), ("logical", 11), ("comparison", 12) ] ∧
    predicateFieldTags.map (fun f => (f.name, f.number)) = [("root", 1)] ∧
    (∀ f ∈ nodeFieldTags ++ predicateFieldTags, f.wire = f.goType.wire) ∧
    nodeFieldTags.map FieldTag.wire =
      [ .varint, .bytes, .bytes, .varint, .varint, .varint, .fixed64, .bytes, .bytes, .bytes,
        .varint, .varint ] ∧
    predicateFieldTags.map FieldTag.wire = [.bytes] ∧
    (nodeFieldTags.filter FieldTag.oneof).map
        (fun f => (f.number, f.wire, f.goType))
      = OneofWrappers.map (fun k => (k.fieldNumber, k.wire, k.fieldType)) ∧
    (∀ w : isNode_Value, ∃ payload,
      w.marshal = appendTag w.wrapper.fieldNumber w.wrapper.wire ++ payload) := by
  refine ⟨rfl, by decide, rfl, rfl, by decide, rfl, rfl, rfl, ?_⟩
  intro w
  cases w <;> exact ⟨_, rfl⟩

/-- C7, as stated, fails: the bytes of a `StringValue` field followed by a
`TagRefValue` field carry two oneof members, and unmarshalling returns a node,
the one holding the later member; so does unmarshalling a `Predicate` whose root
is made of these bytes. -/
theorem unmarshal_two_variants_accepted :
    (isNode_Value.Node_StringValue [97]).marshal ++ (isNode_Value.Node_TagRefValue [98]).marshal
      = [26, 1, 97, 74, 1, 98] ∧
    Node.unmarshal [26, 1, 97, 74, 1, 98] = some (.mk 0 [] (some (.Node_TagRefValue [98]))) ∧
    Unmarshal [10, 6, 26, 1, 97, 74, 1, 98]
      = some ⟨some (.mk 0 [] (some (.Node_TagRefValue [98])))⟩ :=
  ⟨rfl, rfl, rfl⟩

/-- C7, amended: bytes that carry more than one oneof member are not rejected.
Unmarshalling the bytes of a well-formed node that nests no deeper than the
recursion limit, followed by any number of further well-formed oneof fields,
returns a node; it has the type and children of the first and holds the member
that comes last on the wire. -/
theorem unmarshal_last_variant_wins (n : Node) (hn : n.WellFormed)
    (hd : n.depth ≤ DefaultRecursionLimit) (ws : List isNode_Value)
    (hws : ∀ w ∈ ws, w.WellFormed) (w : isNode_Value) (hw : w.WellFormed) :
    Node.unmarshal (n.marshal ++ (marshalValues ws ++ w.marshal))
      = some (.mk n.NodeType n.Children (some w)) := by
  obtain ⟨hr, hs, hl⟩ := hn
  obtain ⟨hwr, hws1, hwl⟩ := hw
  have hdn : n.depth ≤ 9999 + 1 := by
    have h2 : DefaultRecursionLimit = 10000 := rfl
    omega
  rw [Node.unmarshal, enterMessage_limit]
  obtain ⟨f1, hf1, hA⟩ := unmarshalInto_node n hr hs hl 9999 _
    (marshalValues ws ++ w.marshal) Node.zero hdn (le_refl _)
  rw [hA, zero_merge]
  obtain ⟨f2, v2, hf2, hB⟩ := unmarshalInto_values ws hws 9999 f1 w.marshal n hf1
  rw [hB]
  have hpos := length_value_marshal_pos w
  obtain ⟨f, rfl⟩ : ∃ f, f2 = f + 1 := ⟨f2 - 1, by omega⟩
  have hC := unmarshalInto_value w hwr hws1 hwl 9999 f [] (.mk n.NodeType n.Children v2)
  rw [List.append_nil] at hC
  rw [hC, unmarshalInto_nil]
  simp [Node.setValue, Node.NodeType, Node.Children]

/-- Witness of C7, amended: a tag reference "x" followed on the wire by a boolean
and then a comparison operator decodes to the node holding the operator. -/
theorem unmarshal_last_variant_wins_witness :
    Node.unmarshal ((Node.mk Node_TypeTagRef [] (some (.Node_TagRefValue [120]))).marshal
        ++ (marshalValues [.Node_BooleanValue true]
          ++ (isNode_Value.Node_Comparison_ Node_ComparisonLess).marshal))
      = some (.mk Node_TypeTagRef [] (some (.Node_Comparison_ Node_ComparisonLess))) :=
  unmarshal_last_variant_wins (.mk Node_TypeTagRef [] (some (.Node_TagRefValue [120])))
    ⟨by decide, by decide, by decide⟩ (by decide) [.Node_BooleanValue true]
    (by
      intro w hw
      rw [List.mem_singleton] at hw
      subst hw
      exact ⟨by decide, by decide, by decide⟩)
    (.Node_Comparison_ Node_ComparisonLess) ⟨by decide, by decide, by decide⟩

/-- C8, as stated, fails: a comparison expression without children breaks the
arity rule, is a `Node`, and unmarshalling its bytes returns it; the same holds
for a tree that breaks the rule at two depths. -/
theorem unmarshal_accepts_bad_arity :
    (Node.mk Node_TypeComparisonExpression [] none).arityOk = false ∧
    (Node.mk Node_TypeComparisonExpression [] none).marshal = [8, 1] ∧
    Node.unmarshal [8, 1] = some (.mk Node_TypeComparisonExpression [] none) ∧
    Unmarshal [10, 2, 8, 1] = some ⟨some (.mk Node_TypeComparisonExpression [] none)⟩ ∧
    badArityNode.arityOk = false ∧
    Node.unmarshal badArityNode.marshal = some badArityNode :=
  ⟨rfl, rfl, rfl, rfl, rfl, rfl⟩

/-- C8, amended: neither building a `Node` nor unmarshalling one checks the
number of children.  Every node whose numbers are in range, whose strings are
valid UTF-8 and which nests no deeper than the recursion limit is returned by
unmarshalling its bytes, with its type and all its children, whatever the arity
rule says of it at any depth. -/
theorem unmarshal_any_arity (n : Node) (h : n.WellFormed)
    (hd : n.depth ≤ DefaultRecursionLimit) :
    Node.unmarshal n.marshal = some n ∧
    Node.GetNodeType (Node.unmarshal n.marshal) = n.NodeType ∧
    (Node.GetChildren (Node.unmarshal n.marshal)).length = n.Children.length := by
  have hdn : n.depth ≤ 9999 + 1 := by
    have h2 : DefaultRecursionLimit = 10000 := rfl
    omega
  have hu : Node.unmarshal n.marshal = some n := by
    rw [Node.unmarshal, enterMessage_limit]
    exact unmarshalInto_marshal n h _ _ hdn (le_refl _)
  rw [hu]
  exact ⟨rfl, rfl, rfl⟩

/-- Witness of C8, amended: the tree that breaks the arity rule at two depths. -/
theorem unmarshal_any_arity_witness :
    badArityNode.arityOk = false ∧
    Node.unmarshal badArityNode.marshal = some badArityNode ∧
    Node.GetNodeType (Node.unmarshal badArityNode.marshal) = Node_TypeParenExpression ∧
    (Node.GetChildren (Node.unmarshal badArityNode.marshal)).length = 3 :=
  ⟨rfl, unmarshal_any_arity badArityNode ⟨by decide, by decide, by decide⟩ (by decide)⟩

/-- C9, as stated, fails: `Reset` is an exported method, and after it a
comparison node with two children has type 0, no children and no value; a
predicate with a root has none. -/
theorem Reset_changes_fields :
    exampleNodeObject.exported.NodeType = Node_TypeComparisonExpression ∧
    (NodeMethod.receiverAfter exampleRuntime PackageVars.initial .Reset
        exampleNodeObject).exported.NodeType = 0 ∧
    (NodeMethod.receiverAfter exampleRuntime PackageVars.initial .Reset
        exampleNodeObject).exported.Children = [] ∧
    (NodeMethod.receiverAfter exampleRuntime PackageVars.initial .Reset
        exampleNodeObject).exported.Value = none ∧
    (PredicateMethod.receiverAfter exampleRuntime PackageVars.initial .Reset
        ⟨none, 0, [], ⟨some Node.zero⟩⟩).exported.Root = none :=
  ⟨rfl, rfl, rfl, rfl, rfl⟩

/-- C9, amended: every exported method of `Node` and of `Predicate` other than
`Reset` leaves `NodeType`, `Children` and `Value` (and `Root`) as they were,
whatever the runtime and the package variables; `Reset` sets them to the zero
value.  The unexported `state` is not covered: `ProtoReflect` and `String` store
the message info in a receiver that holds none. -/
theorem methods_frame :
    (∀ (rt : Runtime) (pkg : PackageVars) (m : NodeMethod) (x : NodeObject),
      (NodeMethod.receiverAfter rt pkg m x).exported
        = if m = .Reset then Node.zero else x.exported) ∧
    (∀ (rt : Runtime) (pkg : PackageVars) (m : PredicateMethod) (x : PredicateObject),
      (PredicateMethod.receiverAfter rt pkg m x).exported
        = if m = .Reset then Predicate.zero else x.exported) ∧
    Node.zero.NodeType = Node_TypeLogicalExpression ∧ Node.zero.Children = [] ∧
    Node.zero.Value = none ∧ Predicate.zero.Root = none ∧
    (NodeMethod.receiverAfter exampleRuntime PackageVars.initial .ProtoReflect
        exampleNodeObject).state = some 0 ∧
    (NodeMethod.receiverAfter exampleRuntime PackageVars.initial .String
        exampleNodeObject).state = some 0 ∧
    exampleNodeObject.state = none := by
  refine ⟨?_, ?_, rfl, rfl, rfl, rfl, rfl, rfl, rfl⟩
  · intro rt pkg m x
    cases m
    case Reset =>
      simp only [NodeMethod.receiverAfter, Node.Reset, if_true]
      split <;> rfl
    case String =>
      simp only [NodeMethod.receiverAfter, Node.String, Node.ProtoReflect, reduceCtorEq,
        if_false]
      split
      · split <;> rfl
      · rfl
    case ProtoReflect =>
      simp only [NodeMethod.receiverAfter, Node.ProtoReflect, reduceCtorEq, if_false]
      split
      · split <;> rfl
      · rfl
    all_goals rfl
  · intro rt pkg m x
    cases m
    case Reset =>
      simp only [PredicateMethod.receiverAfter, Predicate.Reset, if_true]
      split <;> rfl
    case String =>
      simp only [PredicateMethod.receiverAfter, Predicate.String, Predicate.ProtoReflect,
        reduceCtorEq, if_false]
      split
      · split <;> rfl
      · rfl
    case ProtoReflect =>
      simp only [PredicateMethod.receiverAfter, Predicate.ProtoReflect, reduceCtorEq,
        if_false]
      split
      · split <;> rfl
      · rfl
    all_goals rfl

/-- C10: for every tag name `x`, string `v` and record without tag `x`, the
comparison node with children `TagRef(x)` and the string literal `v` evaluates
to `false` under `Equal` and to `true` under `NotEqual`, without error. -/
theorem evaluate_missing_tag (g : EvalGiven) (r : Record) (x v : GoString)
    (h : r.lookupTag x = none) :
    evaluate g r (.mk Node_TypeComparisonExpression
        [ .mk Node_TypeTagRef [] (some (.Node_TagRefValue x)),
          .mk Node_TypeLiteral [] (some (.Node_StringValue v)) ]
        (some (.Node_Comparison_ Node_ComparisonEqual))) = .ok false ∧
    evaluate g r (.mk Node_TypeComparisonExpression
        [ .mk Node_TypeTagRef [] (some (.Node_TagRefValue x)),
          .mk Node_TypeLiteral [] (some (.Node_StringValue v)) ]
        (some (.Node_Comparison_ Node_ComparisonNotEqual))) = .ok true := by
  constructor
  · simp [evaluate, evalOperand, h, applyComparison, Node_ComparisonEqual,
      Node_ComparisonNotEqual]
  · simp [evaluate, evalOperand, h, applyComparison, Node_ComparisonNotEqual]

/-- Witness of C10: tag "x" against the literal "v" on the record without
tags. -/
theorem evaluate_missing_tag_witness :
    emptyRecord.lookupTag [120] = none ∧
    evaluate stringEquality emptyRecord (.mk Node_TypeComparisonExpression
        [ .mk Node_TypeTagRef [] (some (.Node_TagRefValue [120])),
          .mk Node_TypeLiteral [] (some (.Node_StringValue [118])) ]
        (some (.Node_Comparison_ Node_ComparisonEqual))) = .ok false ∧
    evaluate stringEquality emptyRecord (.mk Node_TypeComparisonExpression
        [ .mk Node_TypeTagRef [] (some (.Node_TagRefValue [120])),
          .mk Node_TypeLiteral [] (some (.Node_StringValue [118])) ]
        (some (.Node_Comparison_ Node_ComparisonNotEqual))) = .ok true :=
  ⟨rfl, evaluate_missing_tag stringEquality emptyRecord [120] [118] rfl⟩

/-- C11: every getter is total on a nil receiver and returns a fixed default:
on a nil `*Node`, `GetNodeType` returns `TypeLogicalExpression`, `GetChildren`
and `GetValue` return nil, the string getters `""`, `GetBooleanValue` `false`,
the numeric getters 0, `GetLogical` `LogicalAnd` and `GetComparison`
`ComparisonEqual`; on a nil `*Predicate`, `GetRoot` returns nil; on a non-nil
receiver `GetNodeType`, `GetChildren`, `GetValue` and `GetRoot` return the
stored field unchanged. -/
theorem getters_nil_receiver :
    Node.GetNodeType none = Node_TypeLogicalExpression ∧
    Node.GetChildren none = [] ∧
    Node.GetValue none = none ∧
    Node.GetStringValue none = [] ∧
    Node.GetBooleanValue none = false ∧
    Node.GetIntegerValue none = 0 ∧
    Node.GetUnsignedValue none = 0 ∧
    Node.GetFloatValue none = 0 ∧
    Node.GetRegexValue none = [] ∧
    Node.GetTagRefValue none = [] ∧
    Node.GetFieldRefValue none = [] ∧
    Node.GetLogical none = Node_LogicalAnd ∧
    Node.GetComparison none = Node_ComparisonEqual ∧
    Predicate.GetRoot none = none ∧
    (∀ n : Node, Node.GetNodeType (some n) = n.NodeType ∧
      Node.GetChildren (some n) = n.Children ∧ Node.GetValue (some n) = n.Value) ∧
    (∀ p : Predicate, Predicate.GetRoot (some p) = p.Root) :=
  ⟨rfl, rfl, rfl, rfl, rfl, rfl, rfl, rfl, rfl, rfl, rfl, rfl, rfl, rfl,
    fun _ => ⟨rfl, rfl, rfl⟩, fun _ => rfl⟩

set_option maxRecDepth 1000000 in
/-- C12: the raw descriptor, read as a `FileDescriptorProto`, declares the
messages `Node` and `Predicate` and, inside `Node`, the enums `Type`,
`Comparison` and `Logical` with exactly the `(number, name)` pairs of
`Node_Type_name`, `Node_Comparison_name` and `Node_Logical_name`, in the same
order; so for every declared enum constant `x` the name `String` resolves for
`Number(x)` is the entry of the name map under `x`. -/
theorem rawDesc_agrees_with_name_maps :
    ((unmarshalFile file_predicate_proto_rawDesc).map fun fd =>
        (fd.Name, fd.Package, fd.Enums.length,
          fd.Messages.map fun m =>
            (m.Name, m.Enums.map EnumDescriptor.Name, m.Messages.length)))
      = some (goString "predicate.proto", goString "influxdata.platform.storage", 0,
          [ (goString "Node", [goString "Type", goString "Comparison", goString "Logical"], 0),
            (goString "Predicate", [], 0) ]) ∧
    file_predicate_proto_enumTypes.map EnumDescriptor.Name
      = [goString "Type", goString "Comparison", goString "Logical"] ∧
    file_predicate_proto_enumTypes.map EnumDescriptor.pairs
      = [ nameMapBytes Node_Type_name, nameMapBytes Node_Comparison_name,
          nameMapBytes Node_Logical_name ] ∧
    (∀ x ∈ declaredNodeTypes,
      (mapGet Node_Type_name x).map goString = some (Node_Type.String x)) ∧
    (∀ x ∈ declaredComparisons,
      (mapGet Node_Comparison_name x).map goString = some (Node_Comparison.String x)) ∧
    (∀ x ∈ declaredLogicals,
      (mapGet Node_Logical_name x).map goString = some (Node_Logical.String x)) := by
  refine ⟨by rfl, by decide, by decide, by decide, by decide, by decide⟩

end datatypes
